import Mathlib

/-!
Verification development for the rolo HTTP routing and request-dispatch toolkit.

The development shallowly embeds the parts of the code base that the checked
properties are about:

* rolo/gateway/chain.py - the HandlerChain state machine (request handlers,
  response handlers, finalizers, exception handlers, and the stop / terminate /
  throw / respond control primitives),
* rolo/dispatcher.py - the structured handler dispatcher and its result
  coercion,
* rolo/routing/router.py and rolo/routing/rules.py - the copy-on-write Router
  and the rule factories.

Python exceptions are represented as natural-number tokens, python values
relevant to response bodies as an explicit inductive type, and the werkzeug
primitives the code uses (Map, Rule, the URL matcher, Response) are modelled
at their interface as the code relies on them.
-/

namespace Rolo

/-! ### JSON documents, modelling the arguments of json.dumps -/

/-- A scalar JSON value. JSON documents are modelled up to one nesting level
(scalars, arrays of scalars, objects with scalar values), which covers every
document any checked property mentions. -/
inductive JScalar where
  | null : JScalar
  | bool : Bool → JScalar
  | num : Int → JScalar
  | str : String → JScalar
deriving DecidableEq, Repr

inductive JValue where
  | scalar : JScalar → JValue
  | arr : List JScalar → JValue
  | obj : List (String × JScalar) → JValue
deriving DecidableEq, Repr

def JScalar.dumps : JScalar → String
  | .null => "null"
  | .bool true => "true"
  | .bool false => "false"
  | .num n => toString n
  | .str s => "\"" ++ s ++ "\""

def JValue.dumpsElems : List JScalar → String
  | [] => ""
  | [v] => v.dumps
  | v :: w :: vs => v.dumps ++ ", " ++ JValue.dumpsElems (w :: vs)

def JValue.dumpsPairs : List (String × JScalar) → String
  | [] => ""
  | [(k, v)] => "\"" ++ k ++ "\": " ++ v.dumps
  | (k, v) :: kv :: kvs => "\"" ++ k ++ "\": " ++ v.dumps ++ ", " ++ JValue.dumpsPairs (kv :: kvs)

/-- Models json.dumps with its default separators, for documents whose
strings contain no characters that need escaping. -/
def JValue.dumps : JValue → String
  | .scalar v => v.dumps
  | .arr xs => "[" ++ JValue.dumpsElems xs ++ "]"
  | .obj kvs => "\x7b" ++ JValue.dumpsPairs kvs ++ "\x7d"

/-! ### Python values appearing as response payloads / bodies -/

/-- The python values that can end up in the response.response attribute or be
passed as a respond() payload. A regular werkzeug body is an iterable of byte
chunks (constructor chunks); dict / list / str / bytes mirror the isinstance
branches of the code; obj stands for any other python object. -/
inductive PyVal where
  | dict : List (String × JScalar) → PyVal
  | list : List JScalar → PyVal
  | str : String → PyVal
  | bytes : String → PyVal
  | none : PyVal
  | chunks : List String → PyVal
  | obj : Nat → PyVal
deriving DecidableEq, Repr

/-- Python truthiness of the modelled values. -/
def PyVal.truthy : PyVal → Bool
  | .dict kvs => !kvs.isEmpty
  | .list xs => !xs.isEmpty
  | .str s => !(s == "")
  | .bytes s => !(s == "")
  | .none => false
  | .chunks cs => !cs.isEmpty
  | .obj _ => true

/-! ### Response, modelling rolo.Response (a werkzeug Response subclass) -/

structure Resp where
  statusCode : Nat := 200
  body : PyVal := .chunks []
  mimetype : Option String := Option.none
  headers : List (String × String) := []
deriving DecidableEq, Repr

/-- A fresh Response(), as created by the default constructor: status 200,
empty body, default (not explicitly forced) content type. -/
def Resp.default : Resp := {}

/-- Models the werkzeug data setter: the body becomes a single byte chunk. -/
def Resp.setData (r : Resp) (s : String) : Resp := { r with body := .chunks [s] }

/-- Models Response.set_json (rolo/response.py): serializes the document with
json.dumps into the body and sets the mimetype to application/json. -/
def Resp.setJson (r : Resp) (doc : JValue) : Resp :=
  { r with body := .chunks [doc.dumps], mimetype := some "application/json" }

/-- Models Headers.set for a single key: replaces the value of an existing key
in place, otherwise appends the header at the end. -/
def setHeader (hs : List (String × String)) (k v : String) : List (String × String) :=
  if hs.any (fun kv => kv.1 == k) then hs.map (fun kv => if kv.1 == k then (k, v) else kv)
  else hs ++ [(k, v)]

/-- Models Headers.update: every key of the extra headers overwrites the
existing values for that key. -/
def headersUpdate (hs extra : List (String × String)) : List (String × String) :=
  extra.foldl (fun acc kv => setHeader acc kv.1 kv.2) hs

def headerValue (hs : List (String × String)) (k : String) : Option String :=
  (hs.find? (fun kv => kv.1 == k)).map Prod.snd

/-! ### HandlerChain state (rolo/gateway/chain.py)

Python exceptions are natural-number tokens. A handler is modelled by its
identifier together with its behavior: a function from the visible chain state
(the mutable fields of the chain plus the response under construction) to the
state it leaves behind and, optionally, the exception it raises; state changes
a handler made before raising persist, exactly as for a python handler mutating
the chain in place. The ghost trace field records, in order, which handlers the
chain invoked (tagged by the loop that invoked them), and the ghost log field
records the exceptions the chain caught and logged (tagged by the loop whose
except clause logged them); handlers themselves can touch neither. -/

abbrev Exn := Nat

inductive Phase where
  | req | resp | fin | exc
deriving DecidableEq, Repr

/-- The chain state visible to handlers: the stopped / terminated / error /
finalized fields of the HandlerChain and the Response being populated. -/
structure Visible where
  stopped : Bool
  terminated : Bool
  error : Option Exn
  finalized : Bool
  resp : Resp
deriving DecidableEq, Repr

structure ChainState where
  vis : Visible
  log : List (Phase × Exn)
  trace : List (Phase × Nat)
deriving DecidableEq, Repr

abbrev Behavior := Visible → Visible × Option Exn

abbrev HandlerSpec := Nat × Behavior

abbrev ExcBehavior := Exn → Visible → Visible × Option Exn

abbrev ExcHandlerSpec := Nat × ExcBehavior

/-- The chain configuration flags stop_on_error and raise_on_error, with their
class-level defaults. -/
structure ChainCfg where
  stopOnError : Bool := true
  raiseOnError : Bool := false
deriving DecidableEq, Repr

/-- Invoke one handler: record the invocation in the ghost trace and run the
behavior on the visible state. -/
def invokeAt (ph : Phase) (i : Nat) (b : Behavior) (s : ChainState) : ChainState × Option Exn :=
  let r := b s.vis
  ({ s with vis := r.1, trace := s.trace ++ [(ph, i)] }, r.2)

namespace HandlerChain

/-- HandlerChain._call_response_handlers: before each handler the loop returns
if the chain was terminated; each handler call is wrapped in try/except, a
raised exception is logged and discarded. -/
def callResponseHandlers : List HandlerSpec → ChainState → ChainState
  | [], s => s
  | (i, b) :: rest, s =>
    if s.vis.terminated then s
    else
      let r := invokeAt .resp i b s
      let s1 := match r.2 with
        | Option.none => r.1
        | some e => { r.1 with log := r.1.log ++ [(.resp, e)] }
      callResponseHandlers rest s1

/-- HandlerChain._call_finalizers: every finalizer is called, each wrapped in
try/except; a raised exception is logged and discarded. -/
def callFinalizers : List HandlerSpec → ChainState → ChainState
  | [], s => s
  | (i, b) :: rest, s =>
    let r := invokeAt .fin i b s
    let s1 := match r.2 with
      | Option.none => r.1
      | some e => { r.1 with log := r.1.log ++ [(.fin, e)] }
    callFinalizers rest s1

/-- Invoke one exception handler (it additionally receives the exception). -/
def invokeExcAt (i : Nat) (b : ExcBehavior) (e : Exn) (s : ChainState) : ChainState × Option Exn :=
  let r := b e s.vis
  ({ s with vis := r.1, trace := s.trace ++ [(.exc, i)] }, r.2)

/-- HandlerChain._call_exception_handlers: every exception handler is called
with the exception, each wrapped in try/except so that all of them run; a
nested exception is logged and discarded. -/
def callExceptionHandlers (e : Exn) : List ExcHandlerSpec → ChainState → ChainState
  | [], s => s
  | (i, b) :: rest, s =>
    let r := invokeExcAt i b e s
    let s1 := match r.2 with
      | Option.none => r.1
      | some nested => { r.1 with log := r.1.log ++ [(.exc, nested)] }
    callExceptionHandlers e rest s1

/-- How the request-handler loop of HandlerChain.handle ended: by raising the
recorded pending error, by an early return after terminate, or by falling
through to the response handlers (either normally or after a stop). -/
inductive ReqOutcome where
  | escaped : Exn → ReqOutcome
  | terminatedRun : ReqOutcome
  | completed : ReqOutcome
deriving DecidableEq, Repr

/-- One iteration body of the request-handler loop: the handler runs inside
try/except; on an exception the chain records the continuation behavior
(raise_on_error remembers the error, stop_on_error sets stopped) and then runs
the exception handlers, which may overwrite it. -/
def reqStep (cfg : ChainCfg) (excHs : List ExcHandlerSpec) (i : Nat) (b : Behavior)
    (s : ChainState) : ChainState :=
  let r := invokeAt .req i b s
  match r.2 with
  | Option.none => r.1
  | some e =>
    let va := if cfg.raiseOnError then { r.1.vis with error := some e } else r.1.vis
    let vb := if cfg.stopOnError then { va with stopped := true } else va
    callExceptionHandlers e excHs { r.1 with vis := vb }

/-- The decision after each request handler, in the fixed priority of the
code: a recorded pending error is re-raised, then terminated returns early,
then stopped breaks out of the loop, otherwise the loop continues. -/
def reqDecide (recur : ChainState → ChainState × ReqOutcome) (s2 : ChainState) :
    ChainState × ReqOutcome :=
  match s2.vis.error with
  | some err => (s2, .escaped err)
  | Option.none =>
    if s2.vis.terminated then (s2, .terminatedRun)
    else if s2.vis.stopped then (s2, .completed)
    else recur s2

/-- The request-handler loop of HandlerChain.handle. -/
def runRequestHandlers (cfg : ChainCfg) (excHs : List ExcHandlerSpec) :
    List HandlerSpec → ChainState → ChainState × ReqOutcome
  | [], s => (s, .completed)
  | (i, b) :: rest, s =>
    reqDecide (runRequestHandlers cfg excHs rest) (reqStep cfg excHs i b s)

/-- The finally clause of HandlerChain.handle: call the finalizers unless the
chain was already finalized. -/
def finallyStep (finHs : List HandlerSpec) (s : ChainState) : ChainState :=
  if s.vis.finalized then s else callFinalizers finHs s

/-- The initial state of a freshly constructed HandlerChain about to handle the
given response object. -/
def initState (resp0 : Resp) : ChainState :=
  { vis := { stopped := false, terminated := false, error := Option.none,
             finalized := false, resp := resp0 },
    log := [], trace := [] }

/-- The tail of HandlerChain.handle after the request-handler loop: a raised
pending error propagates to the caller but the finally clause still runs the
finalizers; a terminated chain returns after the finalizers; otherwise the
response handlers run and then the finalizers. -/
def handleFinish (respHs finHs : List HandlerSpec) :
    ChainState × ReqOutcome → ChainState × Option Exn
  | (s1, .escaped e) => (finallyStep finHs s1, some e)
  | (s1, .terminatedRun) => (finallyStep finHs s1, Option.none)
  | (s1, .completed) => (finallyStep finHs (callResponseHandlers respHs s1), Option.none)

/-- HandlerChain.handle on a freshly constructed chain. The second component
is the exception escaping handle, if any; every other exception raised by a
handler is caught inside the loops above. -/
def handle (cfg : ChainCfg) (reqHs : List HandlerSpec) (excHs : List ExcHandlerSpec)
    (respHs finHs : List HandlerSpec) (resp0 : Resp) : ChainState × Option Exn :=
  handleFinish respHs finHs (runRequestHandlers cfg excHs reqHs (initState resp0))

end HandlerChain

/-! ### Chain control primitives as handler behaviors -/

/-- A handler that only calls chain.stop(). -/
def stopBehavior : Behavior := fun v => ({ v with stopped := true }, Option.none)

/-- A handler that only calls chain.terminate(). -/
def terminateBehavior : Behavior := fun v => ({ v with terminated := true }, Option.none)

/-- A handler that calls chain.throw(e) and then returns normally. -/
def throwBehavior (e : Exn) : Behavior := fun v => ({ v with error := some e }, Option.none)

/-- A handler that raises the exception e. -/
def raiseBehavior (e : Exn) : Behavior := fun v => (v, some e)

/-- A handler that does nothing. -/
def noopBehavior : Behavior := fun v => (v, Option.none)

/-- HandlerChain.respond as a transformation of the visible state: sets the
response status code, serializes the payload by its type exactly as the
isinstance cascade of the code does, merges the extra headers, and stops the
chain. -/
def respondBehavior (statusCode : Nat) (payload : PyVal)
    (headers : List (String × String)) : Behavior :=
  fun v =>
    let r0 := { v.resp with statusCode := statusCode }
    let r1 : Resp :=
      match payload with
      | .dict kvs => r0.setJson (.obj kvs)
      | .list xs => r0.setJson (.arr xs)
      | .str s => r0.setData s
      | .bytes s => r0.setData s
      | p =>
        if p = .none ∧ ¬r0.body.truthy then { r0 with body := .chunks [] }
        else { r0 with body := p }
    let r2 := { r1 with headers := headersUpdate r1.headers headers }
    ({ v with resp := r2, stopped := true }, Option.none)

/-! ### The structured handler dispatcher (rolo/dispatcher.py)

The values an endpoint may return are modelled by ResultValue; a pydantic
model instance is represented together with the mapping its model_dump
produces. The ValueError of _populate_response is the UnsupportedResultType
error kind of the spec. -/

inductive ResultValue where
  | response : Resp → ResultValue
  | str : String → ResultValue
  | bytes : String → ResultValue
  | mapping : List (String × JScalar) → ResultValue
  | sequence : List JScalar → ResultValue
  | none : ResultValue
  | model : List (String × JScalar) → ResultValue
  | other : Nat → ResultValue
deriving DecidableEq, Repr

inductive DispatchError where
  | unsupportedResultType : DispatchError
deriving DecidableEq, Repr

/-- _populate_response: None leaves the response untouched, str/bytes become
the raw body via the data setter, dict/list are serialized with json.dumps and
the mimetype is set to application/json, anything else raises ValueError. -/
def populateResponse (response : Resp) (result : ResultValue) : Except DispatchError Resp :=
  match result with
  | .none => .ok response
  | .str s => .ok (response.setData s)
  | .bytes s => .ok (response.setData s)
  | .mapping kvs =>
    .ok { response.setData (JValue.dumps (.obj kvs)) with mimetype := some "application/json" }
  | .sequence xs =>
    .ok { response.setData (JValue.dumps (.arr xs)) with mimetype := some "application/json" }
  | _ => .error .unsupportedResultType

/-- The result coercion of the dispatcher created by handler_dispatcher: a
pydantic model result is first decomposed via model_dump; a Response result is
passed through unchanged; otherwise a fresh Response() is created and, unless
the result is None, populated by _populate_response. -/
def handlerDispatcherCoerce (result : ResultValue) : Except DispatchError Resp :=
  let result1 : ResultValue :=
    match result with
    | .model kvs => .mapping kvs
    | r => r
  match result1 with
  | .response r => .ok r
  | .none => .ok Resp.default
  | r => populateResponse Resp.default r

/-! ### The Router (rolo/routing/router.py, rolo/routing/rules.py)

The werkzeug primitives the Router builds on (Map, Rule, MapAdapter.match) are
external collaborators; they are modelled here at the interface the code uses:
a rule carries a path pattern, a host pattern, an optional method set and an
endpoint; a map carries its configuration and its rules in insertion order;
the matcher tries the rules in order (werkzeug keeps insertion order among
rules of equal complexity, which covers the overlapping same-path rules the
code relies on), distinguishes NotFound from MethodNotAllowed, and a rule
whose methods contain GET also serves HEAD (the werkzeug Rule constructor adds
HEAD alongside GET). Object identity of python Map objects is made explicit by
a store of every map ever created; a Router holds an index into that store. -/

namespace Routing

inductive Seg where
  | lit : String → Seg
  | pvar : String → Seg
deriving DecidableEq, Repr

/-- A path pattern: a sequence of literal or single-variable segments, plus an
optional trailing path converter (like /wildcard/<path:name>) that captures
the rest of the matched path verbatim, slashes included. -/
structure PathPattern where
  segs : List Seg
  tail : Option String := Option.none
deriving DecidableEq, Repr

inductive HostSpec where
  | unset : HostSpec
  | lit : String → HostSpec
  | anyHost : HostSpec
deriving DecidableEq, Repr

structure Rule where
  pattern : PathPattern
  host : HostSpec
  methods : Option (List String)
  endpoint : Nat
  bound : Bool
deriving DecidableEq, Repr

/-- The werkzeug Rule constructor adds HEAD to the methods when GET is present
(HEAD requests are served by GET rules unless an explicit HEAD rule exists). -/
def normalizeMethods : Option (List String) → Option (List String)
  | Option.none => Option.none
  | some ms => some (if "GET" ∈ ms ∧ "HEAD" ∉ ms then ms ++ ["HEAD"] else ms)

def mkRule (pattern : PathPattern) (endpoint : Nat) (methods : Option (List String))
    (host : HostSpec) : Rule :=
  { pattern := pattern, host := host, methods := normalizeMethods methods,
    endpoint := endpoint, bound := false }

/-- Rule.empty(): an unbound copy of the rule with the same pattern, host,
methods and endpoint. -/
def Rule.empty (r : Rule) : Rule := { r with bound := false }

/-- The content a werkzeug rule is compared by (Rule equality ignores which
map the rule is bound to, so it remains valid across clone operations). -/
def Rule.key (r : Rule) : PathPattern × HostSpec × Option (List String) × Nat :=
  (r.pattern, r.host, r.methods, r.endpoint)

def ruleEq (a b : Rule) : Bool := a.key == b.key

structure MapCfg where
  hostMatching : Bool
  strictSlashes : Bool
  mergeSlashes : Bool
  redirectDefaults : Bool
deriving DecidableEq, Repr

structure UrlMap where
  cfg : MapCfg
  rules : List Rule
deriving DecidableEq, Repr

/-- Map.add: binds the rule to this map and appends it to the rule list. -/
def UrlMap.add (m : UrlMap) (r : Rule) : UrlMap :=
  { m with rules := m.rules ++ [{ r with bound := true }] }

/-- _clone_map_without_rules: a new empty map with the same configuration. -/
def cloneMapWithoutRules (old : UrlMap) : UrlMap := { cfg := old.cfg, rules := [] }

/-- _clone_map_with_rules: a new map with the same configuration holding fresh
unbound copies of all rules of the old map. -/
def cloneMapWithRules (old : UrlMap) : UrlMap :=
  old.rules.foldl (fun n r => n.add r.empty) (cloneMapWithoutRules old)

/-- The Map configuration the Router constructor creates: host matching on,
strict slashes off, redirect defaults off (merge_slashes keeps the werkzeug
default). -/
def routerCfg : MapCfg :=
  { hostMatching := true, strictSlashes := false, mergeSlashes := true,
    redirectDefaults := false }

/-- The store of every map object created so far plus the current url_map
reference of the Router. -/
structure RouterState where
  maps : List UrlMap
  urlMap : Nat
deriving DecidableEq, Repr

def emptyRouterMap : UrlMap := { cfg := routerCfg, rules := [] }

def routerInit : RouterState := { maps := [emptyRouterMap], urlMap := 0 }

/-- The map object the Router's url_map field currently references. -/
def RouterState.current (rs : RouterState) : UrlMap := rs.maps.getD rs.urlMap emptyRouterMap

/-- The host defaulting of Router._add_rules: a rule without a host gets the
synthetic match-any pattern when the map has host matching enabled. -/
def hostAdjust (cfg : MapCfg) (r : Rule) : Rule :=
  if r.host = .unset ∧ cfg.hostMatching then { r with host := .anyHost } else r

/-- Router._add_rules: clone the current map with fresh copies of its rules,
default the host of every produced rule, add the rules to the clone, and swap
the url_map reference to the freshly built map. Returns the new router state
and the list of added rules (the return value of add). -/
def RouterState.addRules (rs : RouterState) (produced : List Rule) :
    RouterState × List Rule :=
  let newBase := cloneMapWithRules rs.current
  let rules := produced.map (hostAdjust newBase.cfg)
  let newMap := rules.foldl UrlMap.add newBase
  ({ maps := rs.maps ++ [newMap], urlMap := rs.maps.length }, rules)

/-- Router.add_rule: clone the current map with fresh copies of its rules, add
the given rule unmodified, and swap the url_map reference. -/
def RouterState.addRule (rs : RouterState) (r : Rule) : RouterState :=
  let newMap := (cloneMapWithRules rs.current).add r
  { maps := rs.maps ++ [newMap], urlMap := rs.maps.length }

/-- The KeyError("no such rule") of Router._remove_rules; NoSuchRoute in the
error taxonomy of the spec. -/
inductive RouterError where
  | noSuchRoute : RouterError
deriving DecidableEq, Repr

/-- Router._remove_rules: fails if any given rule is not in the current map
(by rule equality) before any new map is built; otherwise builds a new map
holding fresh copies of all old rules that are not among the given ones and
swaps the url_map reference. -/
def RouterState.removeRules (rs : RouterState) (toRemove : List Rule) :
    Except RouterError RouterState :=
  let old := rs.current
  if toRemove.all (fun r => old.rules.any (fun o => ruleEq r o)) then
    let newMap := old.rules.foldl
      (fun n o => if toRemove.any (fun r => ruleEq o r) then n else n.add o.empty)
      (cloneMapWithoutRules old)
    .ok { maps := rs.maps ++ [newMap], urlMap := rs.maps.length }
  else .error .noSuchRoute

/-! #### The matcher (werkzeug MapAdapter.match, modelled at its interface) -/

/-- Split a character list at every slash. -/
def splitOnSlashAux : List Char → List (List Char)
  | [] => [[]]
  | c :: rest =>
    let r := splitOnSlashAux rest
    if c = '/' then [] :: r
    else
      match r with
      | [] => [[c]]
      | g :: gs => (c :: g) :: gs

/-- The slash-separated components of a path, as str.split("/") computes
them. -/
def splitOnSlash (s : String) : List String :=
  (splitOnSlashAux s.data).map String.mk

/-- Join path components back with slashes (the verbatim remainder captured
by a path converter). -/
def joinSlash : List String → String
  | [] => ""
  | [s] => s
  | s :: t :: rest => s ++ "/" ++ joinSlash (t :: rest)

/-- Match the pattern segments against the slash-separated components of the
path; the default converter of a variable segment matches any single
non-empty component. -/
def matchSegs : List Seg → List String → Option (List (String × String))
  | [], [] => some []
  | .lit s :: ps, c :: cs => if c = s then matchSegs ps cs else Option.none
  | .pvar n :: ps, c :: cs =>
    if c = "" then Option.none
    else (matchSegs ps cs).map (fun args => (n, c) :: args)
  | _, _ => Option.none

/-- Match the pattern segments followed by a trailing path converter, which
captures the non-empty remainder of the path verbatim. -/
def matchSegsTail (name : String) : List Seg → List String → Option (List (String × String))
  | [], rest =>
    if rest.isEmpty then Option.none
    else some [(name, joinSlash rest)]
  | .lit s :: ps, c :: cs => if c = s then matchSegsTail name ps cs else Option.none
  | .pvar n :: ps, c :: cs =>
    if c = "" then Option.none
    else (matchSegsTail name ps cs).map (fun args => (n, c) :: args)
  | _, _ => Option.none

/-- Match a pattern against a path string (which must start with a slash). -/
def matchPath (p : PathPattern) (path : String) : Option (List (String × String)) :=
  match splitOnSlash path with
  | "" :: parts =>
    match p.tail with
    | Option.none => matchSegs p.segs parts
    | some name => matchSegsTail name p.segs parts
  | _ => Option.none

/-- Match a host pattern against the host the adapter was bound to; the
synthetic match-any pattern captures the host under the __host__ variable. -/
def matchHost : HostSpec → String → Option (List (String × String))
  | .anyHost, h => some [("__host__", h)]
  | .lit s, h => if s = h then some [] else Option.none
  | .unset, _ => some []

/-- A rule without methods accepts every method. -/
def Rule.allows (r : Rule) (method : String) : Bool :=
  match r.methods with
  | Option.none => true
  | some ms => ms.contains method

inductive MatchResult where
  | found : Nat → List (String × String) → MatchResult
  | methodNotAllowed : MatchResult
  | notFound : MatchResult
deriving DecidableEq, Repr

/-- Try the rules in order; the first rule whose host and path match and whose
methods allow the request method wins. If some rule matched host and path but
not the method, the failure is MethodNotAllowed, otherwise NotFound. -/
def matchRules (host path method : String) : List Rule → Bool → MatchResult
  | [], sawPath => if sawPath then .methodNotAllowed else .notFound
  | r :: rest, sawPath =>
    match matchHost r.host host, matchPath r.pattern path with
    | some ha, some pa =>
      if r.allows method then .found r.endpoint (ha ++ pa)
      else matchRules host path method rest true
    | _, _ => matchRules host path method rest sawPath

/-- Map.bind(server_name=host) followed by MapAdapter.match(path, method). -/
def UrlMap.matchReq (m : UrlMap) (host path method : String) : MatchResult :=
  matchRules host path method m.rules false

/-! #### Router.dispatch -/

structure HttpRequest where
  host : String
  method : String
  path : String
  rawPath : String
deriving DecidableEq, Repr

/-- Modelled from the spec: rolo/request.py (the module defining get_raw_path)
is not part of the source tree. Per the data model section of the spec the
request carries its path in "both decoded and raw/URL-encoded forms";
get_raw_path returns the raw, still percent-encoded form as received on the
wire. -/
def get_raw_path (r : HttpRequest) : String := r.rawPath

abbrev Dispatcher := HttpRequest → Nat → List (String × String) → Resp

/-- The two error kinds Router.dispatch can fail with. -/
inductive RoutingError where
  | notFound : RoutingError
  | methodNotAllowed : RoutingError
deriving DecidableEq, Repr

/-- args.pop("__host__", None): the synthetic host capture is removed from the
extracted arguments. -/
def popHostArg (args : List (String × String)) : List (String × String) :=
  args.filter (fun kv => kv.1 != "__host__")

/-- The match step of Router.dispatch: bind the current map against the
request host and match the raw (still percent-encoded) path and the method. -/
def RouterState.dispatchMatch (rs : RouterState) (req : HttpRequest) : MatchResult :=
  rs.current.matchReq req.host (get_raw_path req) req.method

/-- Router.dispatch: match, strip the synthetic __host__ argument, and invoke
the configured dispatcher with the request, the matched endpoint and the
extracted arguments. -/
def RouterState.dispatch (rs : RouterState) (D : Dispatcher) (req : HttpRequest) :
    Except RoutingError Resp :=
  match rs.dispatchMatch req with
  | .notFound => .error .notFound
  | .methodNotAllowed => .error .methodNotAllowed
  | .found ep args => .ok (D req ep (popHostArg args))

/-! #### Rule factories (rolo/routing/rules.py) -/

/-- The _RuleAttributes a @route decorator attaches to an endpoint. -/
structure RuleAttr where
  path : PathPattern
  host : HostSpec := .unset
  methods : Option (List String) := Option.none
deriving DecidableEq, Repr

/-- A member of an object scanned by _EndpointsObject: an endpoint with its
attached rule attributes, in the order inspect.getmembers yields them. -/
structure EndpointObj where
  id : Nat
  attrs : List RuleAttr
deriving DecidableEq, Repr

/-- _EndpointRule.get_rules: defaults the host to the synthetic match-any
pattern when the map has host matching enabled, then constructs the rule. -/
def endpointRuleGetRules (cfg : MapCfg) (path : PathPattern) (endpoint : Nat)
    (host : HostSpec) (methods : Option (List String)) : List Rule :=
  let host1 := if host = HostSpec.unset ∧ cfg.hostMatching then HostSpec.anyHost else host
  [mkRule path endpoint methods host1]

/-- The condition of the first pass of _EndpointsObject.get_rules:
attr.methods is truthy and contains "HEAD". -/
def attrHasHead (a : RuleAttr) : Bool :=
  match a.methods with
  | Option.none => false
  | some ms => !ms.isEmpty && ms.contains "HEAD"

/-- _EndpointsObject.get_rules: yields the rules of all attributes whose
methods explicitly contain HEAD first, then all remaining ones, so that GET
rules cannot shadow explicit HEAD rules in the map. -/
def endpointsObjectGetRules (cfg : MapCfg) (endpoints : List EndpointObj) : List Rule :=
  (endpoints.flatMap fun ep => ep.attrs.flatMap fun a =>
    if attrHasHead a then endpointRuleGetRules cfg a.path ep.id a.host a.methods else []) ++
  (endpoints.flatMap fun ep => ep.attrs.flatMap fun a =>
    if attrHasHead a then [] else endpointRuleGetRules cfg a.path ep.id a.host a.methods)

/-- All (endpoint id, rule attribute) pairs of the scanned object, flattened
in scan order. -/
def attrsFlat (endpoints : List EndpointObj) : List (Nat × RuleAttr) :=
  endpoints.flatMap (fun ep => ep.attrs.map (fun a => (ep.id, a)))

/-- A member annotated with @route(path, methods=["GET"]). -/
def getOnlyEndpoint (pat : PathPattern) (gid : Nat) : EndpointObj :=
  { id := gid, attrs := [{ path := pat, methods := some ["GET"] }] }

/-- A member annotated with @route(path, methods=["HEAD"]). -/
def headOnlyEndpoint (pat : PathPattern) (hid : Nat) : EndpointObj :=
  { id := hid, attrs := [{ path := pat, methods := some ["HEAD"] }] }

/-- The router obtained by Router.add(obj) on a fresh Router, where obj is an
object whose scanned members are the given endpoints. -/
def objectRouter (es : List EndpointObj) : RouterState :=
  (routerInit.addRules (endpointsObjectGetRules routerCfg es)).1

end Routing

/-! ### Handler-behavior properties used as theorem hypotheses -/

/-- The behavior does not touch the terminated flag. -/
def PreservesTerminated (b : Behavior) : Prop := ∀ v, ((b v).1).terminated = v.terminated

/-- The behavior does not touch the finalized flag. -/
def PreservesFinalized (b : Behavior) : Prop := ∀ v, ((b v).1).finalized = v.finalized

/-- The behavior does not touch the stopped flag. -/
def PreservesStopped (b : Behavior) : Prop := ∀ v, ((b v).1).stopped = v.stopped

/-- The behavior does not touch the recorded error. -/
def PreservesError (b : Behavior) : Prop := ∀ v, ((b v).1).error = v.error

/-- The behavior does not touch the response. -/
def PreservesResp (b : Behavior) : Prop := ∀ v, ((b v).1).resp = v.resp

/-- An exception-handler behavior that does not touch the recorded error. -/
def ExcPreservesError (b : ExcBehavior) : Prop := ∀ e v, ((b e v).1).error = v.error

/-- An exception-handler behavior that does not touch the finalized flag. -/
def ExcPreservesFinalized (b : ExcBehavior) : Prop := ∀ e v, ((b e v).1).finalized = v.finalized

/-- A handler that does not raise and leaves all chain control state (stopped,
terminated, error, finalized) alone; it may still mutate the response. -/
def NeutralB (b : Behavior) : Prop :=
  PreservesStopped b ∧ PreservesTerminated b ∧ PreservesError b ∧ PreservesFinalized b ∧
    ∀ v, (b v).2 = Option.none

/-- The ghost-trace entries recorded when the request-handler loop invokes the
given handlers in order. -/
def reqTags (hs : List HandlerSpec) : List (Phase × Nat) :=
  hs.map (fun p => (Phase.req, p.1))

/-- The ghost-trace entries recorded when the response-handler loop invokes
the given handlers in order. -/
def respTags (hs : List HandlerSpec) : List (Phase × Nat) :=
  hs.map (fun p => (Phase.resp, p.1))

/-- The ghost-trace entries recorded when the finalizer loop invokes the given
handlers in order. -/
def finTags (hs : List HandlerSpec) : List (Phase × Nat) :=
  hs.map (fun p => (Phase.fin, p.1))

/-- The ghost-trace entries recorded when the exception-handler loop invokes
the given handlers in order. -/
def excTags (hs : List ExcHandlerSpec) : List (Phase × Nat) :=
  hs.map (fun p => (Phase.exc, p.1))

/-- The chain state right after a request handler with identifier i called
chain.respond(202, "ok") on a fresh chain with a default response. -/
def respondOkState (i : Nat) : ChainState :=
  { vis := { stopped := true, terminated := false, error := Option.none, finalized := false,
             resp := { statusCode := 202, body := PyVal.chunks ["ok"],
                       mimetype := Option.none, headers := [] } },
    log := [], trace := [(Phase.req, i)] }

/-! ### Loop lemmas -/

namespace HandlerChain

theorem callFinalizers_trace (hs : List HandlerSpec) (s : ChainState) :
    (callFinalizers hs s).trace = s.trace ++ hs.map (fun p => (Phase.fin, p.1)) := by
  induction hs generalizing s with
  | nil => simp [callFinalizers]
  | cons p rest ih =>
    obtain ⟨i, b⟩ := p
    cases hbv : (b s.vis).2 <;>
      simp [callFinalizers, invokeAt, hbv, ih]

theorem callExceptionHandlers_trace (e : Exn) (hs : List ExcHandlerSpec) (s : ChainState) :
    (callExceptionHandlers e hs s).trace = s.trace ++ hs.map (fun p => (Phase.exc, p.1)) := by
  induction hs generalizing s with
  | nil => simp [callExceptionHandlers]
  | cons p rest ih =>
    obtain ⟨i, b⟩ := p
    cases hbv : (b e s.vis).2 <;>
      simp [callExceptionHandlers, invokeExcAt, hbv, ih]

theorem callResponseHandlers_of_terminated (hs : List HandlerSpec) (s : ChainState)
    (h : s.vis.terminated = true) : callResponseHandlers hs s = s := by
  cases hs with
  | nil => simp [callResponseHandlers]
  | cons p rest => obtain ⟨i, b⟩ := p; simp [callResponseHandlers, h]

theorem callResponseHandlers_trace (hs : List HandlerSpec) (s : ChainState)
    (hp : ∀ p ∈ hs, PreservesTerminated p.2) (ht : s.vis.terminated = false) :
    (callResponseHandlers hs s).trace = s.trace ++ hs.map (fun p => (Phase.resp, p.1)) := by
  induction hs generalizing s with
  | nil => simp [callResponseHandlers]
  | cons p rest ih =>
    obtain ⟨i, b⟩ := p
    have hb : PreservesTerminated b := hp (i, b) (by simp)
    have hrest : ∀ p ∈ rest, PreservesTerminated p.2 := fun p hm => hp p (by simp [hm])
    have ht1 : ((b s.vis).1).terminated = false := by rw [hb s.vis]; exact ht
    cases hbv : (b s.vis).2 <;>
      simp [callResponseHandlers, invokeAt, hbv, ht, ih _ hrest, ht1]

theorem callResponseHandlers_terminated (hs : List HandlerSpec) (s : ChainState)
    (hp : ∀ p ∈ hs, PreservesTerminated p.2) :
    (callResponseHandlers hs s).vis.terminated = s.vis.terminated := by
  induction hs generalizing s with
  | nil => simp [callResponseHandlers]
  | cons p rest ih =>
    obtain ⟨i, b⟩ := p
    have hb : PreservesTerminated b := hp (i, b) (by simp)
    have hrest : ∀ p ∈ rest, PreservesTerminated p.2 := fun p hm => hp p (by simp [hm])
    by_cases ht : s.vis.terminated = true
    · simp [callResponseHandlers, ht]
    · simp only [Bool.not_eq_true] at ht
      cases hbv : (b s.vis).2 <;>
        simp [callResponseHandlers, invokeAt, hbv, ht, ih _ hrest, hb s.vis]

theorem callResponseHandlers_finalized (hs : List HandlerSpec) (s : ChainState)
    (hp : ∀ p ∈ hs, PreservesFinalized p.2) :
    (callResponseHandlers hs s).vis.finalized = s.vis.finalized := by
  induction hs generalizing s with
  | nil => simp [callResponseHandlers]
  | cons p rest ih =>
    obtain ⟨i, b⟩ := p
    have hb : PreservesFinalized b := hp (i, b) (by simp)
    have hrest : ∀ p ∈ rest, PreservesFinalized p.2 := fun p hm => hp p (by simp [hm])
    by_cases ht : s.vis.terminated = true
    · simp [callResponseHandlers, ht]
    · simp only [Bool.not_eq_true] at ht
      cases hbv : (b s.vis).2 <;>
        simp [callResponseHandlers, invokeAt, hbv, ht, ih _ hrest, hb s.vis]

theorem callResponseHandlers_resp (hs : List HandlerSpec) (s : ChainState)
    (hp : ∀ p ∈ hs, PreservesResp p.2) :
    (callResponseHandlers hs s).vis.resp = s.vis.resp := by
  induction hs generalizing s with
  | nil => simp [callResponseHandlers]
  | cons p rest ih =>
    obtain ⟨i, b⟩ := p
    have hb : PreservesResp b := hp (i, b) (by simp)
    have hrest : ∀ p ∈ rest, PreservesResp p.2 := fun p hm => hp p (by simp [hm])
    by_cases ht : s.vis.terminated = true
    · simp [callResponseHandlers, ht]
    · simp only [Bool.not_eq_true] at ht
      cases hbv : (b s.vis).2 <;>
        simp [callResponseHandlers, invokeAt, hbv, ht, ih _ hrest, hb s.vis]

theorem callResponseHandlers_error (hs : List HandlerSpec) (s : ChainState)
    (hp : ∀ p ∈ hs, PreservesError p.2) :
    (callResponseHandlers hs s).vis.error = s.vis.error := by
  induction hs generalizing s with
  | nil => simp [callResponseHandlers]
  | cons p rest ih =>
    obtain ⟨i, b⟩ := p
    have hb : PreservesError b := hp (i, b) (by simp)
    have hrest : ∀ p ∈ rest, PreservesError p.2 := fun p hm => hp p (by simp [hm])
    by_cases ht : s.vis.terminated = true
    · simp [callResponseHandlers, ht]
    · simp only [Bool.not_eq_true] at ht
      cases hbv : (b s.vis).2 <;>
        simp [callResponseHandlers, invokeAt, hbv, ht, ih _ hrest, hb s.vis]

theorem callFinalizers_stopped (hs : List HandlerSpec) (s : ChainState)
    (hp : ∀ p ∈ hs, PreservesStopped p.2) :
    (callFinalizers hs s).vis.stopped = s.vis.stopped := by
  induction hs generalizing s with
  | nil => simp [callFinalizers]
  | cons p rest ih =>
    obtain ⟨i, b⟩ := p
    have hb : PreservesStopped b := hp (i, b) (by simp)
    have hrest : ∀ p ∈ rest, PreservesStopped p.2 := fun p hm => hp p (by simp [hm])
    cases hbv : (b s.vis).2 <;>
      simp [callFinalizers, invokeAt, hbv, ih _ hrest, hb s.vis]

theorem callFinalizers_error (hs : List HandlerSpec) (s : ChainState)
    (hp : ∀ p ∈ hs, PreservesError p.2) :
    (callFinalizers hs s).vis.error = s.vis.error := by
  induction hs generalizing s with
  | nil => simp [callFinalizers]
  | cons p rest ih =>
    obtain ⟨i, b⟩ := p
    have hb : PreservesError b := hp (i, b) (by simp)
    have hrest : ∀ p ∈ rest, PreservesError p.2 := fun p hm => hp p (by simp [hm])
    cases hbv : (b s.vis).2 <;>
      simp [callFinalizers, invokeAt, hbv, ih _ hrest, hb s.vis]

theorem callFinalizers_resp (hs : List HandlerSpec) (s : ChainState)
    (hp : ∀ p ∈ hs, PreservesResp p.2) :
    (callFinalizers hs s).vis.resp = s.vis.resp := by
  induction hs generalizing s with
  | nil => simp [callFinalizers]
  | cons p rest ih =>
    obtain ⟨i, b⟩ := p
    have hb : PreservesResp b := hp (i, b) (by simp)
    have hrest : ∀ p ∈ rest, PreservesResp p.2 := fun p hm => hp p (by simp [hm])
    cases hbv : (b s.vis).2 <;>
      simp [callFinalizers, invokeAt, hbv, ih _ hrest, hb s.vis]

theorem callExceptionHandlers_error (e : Exn) (hs : List ExcHandlerSpec) (s : ChainState)
    (hp : ∀ p ∈ hs, ExcPreservesError p.2) :
    (callExceptionHandlers e hs s).vis.error = s.vis.error := by
  induction hs generalizing s with
  | nil => simp [callExceptionHandlers]
  | cons p rest ih =>
    obtain ⟨i, b⟩ := p
    have hb : ExcPreservesError b := hp (i, b) (by simp)
    have hrest : ∀ p ∈ rest, ExcPreservesError p.2 := fun p hm => hp p (by simp [hm])
    cases hbv : (b e s.vis).2 <;>
      simp [callExceptionHandlers, invokeExcAt, hbv, ih _ hrest, hb e s.vis]

theorem callExceptionHandlers_finalized (e : Exn) (hs : List ExcHandlerSpec) (s : ChainState)
    (hp : ∀ p ∈ hs, ExcPreservesFinalized p.2) :
    (callExceptionHandlers e hs s).vis.finalized = s.vis.finalized := by
  induction hs generalizing s with
  | nil => simp [callExceptionHandlers]
  | cons p rest ih =>
    obtain ⟨i, b⟩ := p
    have hb : ExcPreservesFinalized b := hp (i, b) (by simp)
    have hrest : ∀ p ∈ rest, ExcPreservesFinalized p.2 := fun p hm => hp p (by simp [hm])
    cases hbv : (b e s.vis).2 <;>
      simp [callExceptionHandlers, invokeExcAt, hbv, ih _ hrest, hb e s.vis]

theorem callFinalizers_append (xs ys : List HandlerSpec) (s : ChainState) :
    callFinalizers (xs ++ ys) s = callFinalizers ys (callFinalizers xs s) := by
  induction xs generalizing s with
  | nil => simp [callFinalizers]
  | cons p rest ih =>
    obtain ⟨i, b⟩ := p
    cases hbv : (b s.vis).2 <;>
      simp [callFinalizers, invokeAt, hbv, ih]

theorem callExceptionHandlers_append (e : Exn) (xs ys : List ExcHandlerSpec) (s : ChainState) :
    callExceptionHandlers e (xs ++ ys) s
      = callExceptionHandlers e ys (callExceptionHandlers e xs s) := by
  induction xs generalizing s with
  | nil => simp [callExceptionHandlers]
  | cons p rest ih =>
    obtain ⟨i, b⟩ := p
    cases hbv : (b e s.vis).2 <;>
      simp [callExceptionHandlers, invokeExcAt, hbv, ih]

theorem callResponseHandlers_append (xs ys : List HandlerSpec) (s : ChainState)
    (hp : ∀ p ∈ xs, PreservesTerminated p.2) (ht : s.vis.terminated = false) :
    callResponseHandlers (xs ++ ys) s = callResponseHandlers ys (callResponseHandlers xs s) := by
  induction xs generalizing s with
  | nil => simp [callResponseHandlers]
  | cons p rest ih =>
    obtain ⟨i, b⟩ := p
    have hb : PreservesTerminated b := hp (i, b) (by simp)
    have hrest : ∀ p ∈ rest, PreservesTerminated p.2 := fun p hm => hp p (by simp [hm])
    have ht1 : ((b s.vis).1).terminated = false := by rw [hb s.vis]; exact ht
    cases hbv : (b s.vis).2 with
    | none =>
      simp only [List.cons_append]
      simp [callResponseHandlers, invokeAt, hbv, ht]
      exact ih _ hrest ht1
    | some e =>
      simp only [List.cons_append]
      simp [callResponseHandlers, invokeAt, hbv, ht]
      exact ih _ hrest ht1

theorem callFinalizers_log_ext (hs : List HandlerSpec) (s : ChainState) :
    ∃ ext, (callFinalizers hs s).log = s.log ++ ext := by
  induction hs generalizing s with
  | nil => exact ⟨[], by simp [callFinalizers]⟩
  | cons p rest ih =>
    obtain ⟨i, b⟩ := p
    cases hbv : (b s.vis).2 with
    | none =>
      obtain ⟨ext, hext⟩ := ih { s with vis := (b s.vis).1, trace := s.trace ++ [(Phase.fin, i)] }
      exact ⟨ext, by simp [callFinalizers, invokeAt, hbv]; simpa using hext⟩
    | some e =>
      obtain ⟨ext, hext⟩ := ih { vis := (b s.vis).1, log := s.log ++ [(Phase.fin, e)], trace := s.trace ++ [(Phase.fin, i)] }
      refine ⟨(Phase.fin, e) :: ext, ?_⟩
      simp [callFinalizers, invokeAt, hbv]
      simpa using hext

theorem callExceptionHandlers_log_ext (e : Exn) (hs : List ExcHandlerSpec) (s : ChainState) :
    ∃ ext, (callExceptionHandlers e hs s).log = s.log ++ ext := by
  induction hs generalizing s with
  | nil => exact ⟨[], by simp [callExceptionHandlers]⟩
  | cons p rest ih =>
    obtain ⟨i, b⟩ := p
    cases hbv : (b e s.vis).2 with
    | none =>
      obtain ⟨ext, hext⟩ := ih { s with vis := (b e s.vis).1, trace := s.trace ++ [(Phase.exc, i)] }
      exact ⟨ext, by simp [callExceptionHandlers, invokeExcAt, hbv]; simpa using hext⟩
    | some nested =>
      obtain ⟨ext, hext⟩ := ih { vis := (b e s.vis).1, log := s.log ++ [(Phase.exc, nested)], trace := s.trace ++ [(Phase.exc, i)] }
      refine ⟨(Phase.exc, nested) :: ext, ?_⟩
      simp [callExceptionHandlers, invokeExcAt, hbv]
      simpa using hext

theorem callResponseHandlers_trace_ext (hs : List HandlerSpec) (s : ChainState) :
    ∃ ext, (callResponseHandlers hs s).trace = s.trace ++ ext ∧
      ∀ x ∈ ext, x.1 = Phase.resp := by
  induction hs generalizing s with
  | nil => exact ⟨[], by simp [callResponseHandlers], by simp⟩
  | cons p rest ih =>
    obtain ⟨i, b⟩ := p
    by_cases ht : s.vis.terminated = true
    · exact ⟨[], by simp [callResponseHandlers, ht], by simp⟩
    · simp only [Bool.not_eq_true] at ht
      cases hbv : (b s.vis).2 with
      | none =>
        obtain ⟨ext, hext, hall⟩ :=
          ih { s with vis := (b s.vis).1, trace := s.trace ++ [(Phase.resp, i)] }
        refine ⟨(Phase.resp, i) :: ext, ?_, ?_⟩
        · simp [callResponseHandlers, invokeAt, hbv, ht]
          simpa using hext
        · intro x hx
          rcases List.mem_cons.mp hx with h | h
          · rw [h]
          · exact hall x h
      | some e =>
        obtain ⟨ext, hext, hall⟩ := ih { vis := (b s.vis).1, log := s.log ++ [(Phase.resp, e)], trace := s.trace ++ [(Phase.resp, i)] }
        refine ⟨(Phase.resp, i) :: ext, ?_, ?_⟩
        · simp [callResponseHandlers, invokeAt, hbv, ht]
          simpa using hext
        · intro x hx
          rcases List.mem_cons.mp hx with h | h
          · rw [h]
          · exact hall x h

theorem callResponseHandlers_log_ext (hs : List HandlerSpec) (s : ChainState) :
    ∃ ext, (callResponseHandlers hs s).log = s.log ++ ext := by
  induction hs generalizing s with
  | nil => exact ⟨[], by simp [callResponseHandlers]⟩
  | cons p rest ih =>
    obtain ⟨i, b⟩ := p
    by_cases ht : s.vis.terminated = true
    · exact ⟨[], by simp [callResponseHandlers, ht]⟩
    · simp only [Bool.not_eq_true] at ht
      cases hbv : (b s.vis).2 with
      | none =>
        obtain ⟨ext, hext⟩ := ih { s with vis := (b s.vis).1, trace := s.trace ++ [(Phase.resp, i)] }
        exact ⟨ext, by simp [callResponseHandlers, invokeAt, hbv, ht]; simpa using hext⟩
      | some e =>
        obtain ⟨ext, hext⟩ := ih { vis := (b s.vis).1, log := s.log ++ [(Phase.resp, e)], trace := s.trace ++ [(Phase.resp, i)] }
        refine ⟨(Phase.resp, e) :: ext, ?_⟩
        simp [callResponseHandlers, invokeAt, hbv, ht]
        simpa using hext

theorem reqStep_none (cfg : ChainCfg) (excHs : List ExcHandlerSpec) (i : Nat) (b : Behavior)
    (s : ChainState) (hbv : (b s.vis).2 = Option.none) :
    reqStep cfg excHs i b s
      = { s with vis := (b s.vis).1, trace := s.trace ++ [(Phase.req, i)] } := by
  simp [reqStep, invokeAt, hbv]

theorem reqStep_some (cfg : ChainCfg) (excHs : List ExcHandlerSpec) (i : Nat) (b : Behavior)
    (s : ChainState) (e : Exn) (hbv : (b s.vis).2 = some e) :
    reqStep cfg excHs i b s
      = callExceptionHandlers e excHs
          { vis := (if cfg.stopOnError then
              { (if cfg.raiseOnError then { ((b s.vis).1) with error := some e }
                 else (b s.vis).1) with stopped := true }
              else (if cfg.raiseOnError then { ((b s.vis).1) with error := some e }
                 else (b s.vis).1)),
            log := s.log, trace := s.trace ++ [(Phase.req, i)] } := by
  simp [reqStep, invokeAt, hbv]

theorem reqStep_trace_ext (cfg : ChainCfg) (excHs : List ExcHandlerSpec) (i : Nat)
    (b : Behavior) (s : ChainState) :
    ∃ ext, (reqStep cfg excHs i b s).trace = s.trace ++ ext ∧
      ∀ x ∈ ext, x.1 = Phase.req ∨ x.1 = Phase.exc := by
  cases hbv : (b s.vis).2 with
  | none => exact ⟨[(Phase.req, i)], by rw [reqStep_none cfg excHs i b s hbv], by simp⟩
  | some e =>
    refine ⟨(Phase.req, i) :: excHs.map (fun p => (Phase.exc, p.1)), ?_, ?_⟩
    · rw [reqStep_some cfg excHs i b s e hbv, callExceptionHandlers_trace]
      simp
    · intro x hx
      rcases List.mem_cons.mp hx with h | h
      · left; rw [h]
      · right
        obtain ⟨q, _, hq⟩ := List.mem_map.mp h
        rw [← hq]

theorem reqStep_finalized (cfg : ChainCfg) (excHs : List ExcHandlerSpec) (i : Nat)
    (b : Behavior) (s : ChainState) (hb : PreservesFinalized b)
    (hexc : ∀ p ∈ excHs, ExcPreservesFinalized p.2) :
    (reqStep cfg excHs i b s).vis.finalized = s.vis.finalized := by
  cases hbv : (b s.vis).2 with
  | none => rw [reqStep_none cfg excHs i b s hbv]; exact hb s.vis
  | some e =>
    rw [reqStep_some cfg excHs i b s e hbv, callExceptionHandlers_finalized _ _ _ hexc]
    cases hro : cfg.raiseOnError <;> cases hso : cfg.stopOnError <;>
      simpa using hb s.vis

theorem reqStep_error_none (cfg : ChainCfg) (excHs : List ExcHandlerSpec) (i : Nat)
    (b : Behavior) (s : ChainState) (hcfg : cfg.raiseOnError = false)
    (hb : PreservesError b) (hexc : ∀ p ∈ excHs, ExcPreservesError p.2)
    (hs0 : s.vis.error = Option.none) :
    (reqStep cfg excHs i b s).vis.error = Option.none := by
  have hb1 : ((b s.vis).1).error = Option.none := by rw [hb s.vis]; exact hs0
  cases hbv : (b s.vis).2 with
  | none => rw [reqStep_none cfg excHs i b s hbv]; exact hb1
  | some e =>
    rw [reqStep_some cfg excHs i b s e hbv, callExceptionHandlers_error _ _ _ hexc, hcfg]
    cases hso : cfg.stopOnError <;> simpa using hb1

theorem runRequestHandlers_trace_ext (cfg : ChainCfg) (excHs : List ExcHandlerSpec)
    (hs : List HandlerSpec) (s : ChainState) :
    ∃ ext, (runRequestHandlers cfg excHs hs s).1.trace = s.trace ++ ext ∧
      ∀ x ∈ ext, x.1 = Phase.req ∨ x.1 = Phase.exc := by
  induction hs generalizing s with
  | nil => exact ⟨[], by simp [runRequestHandlers], by simp⟩
  | cons p rest ih =>
    obtain ⟨i, b⟩ := p
    obtain ⟨ext2, hext2, hall2⟩ := reqStep_trace_ext cfg excHs i b s
    rw [show runRequestHandlers cfg excHs ((i, b) :: rest) s
      = reqDecide (runRequestHandlers cfg excHs rest) (reqStep cfg excHs i b s) from rfl]
    set s2 := reqStep cfg excHs i b s with hs2def
    unfold reqDecide
    cases herr : s2.vis.error with
    | some err => exact ⟨ext2, by simp [hext2], hall2⟩
    | none =>
      by_cases hterm : s2.vis.terminated
      · exact ⟨ext2, by simp [hterm, hext2], hall2⟩
      · by_cases hstop : s2.vis.stopped
        · exact ⟨ext2, by simp [hterm, hstop, hext2], hall2⟩
        · obtain ⟨ext3, hext3, hall3⟩ := ih s2
          refine ⟨ext2 ++ ext3, by simp [hterm, hstop, hext3, hext2], ?_⟩
          intro x hx
          rcases List.mem_append.mp hx with h | h
          · exact hall2 x h
          · exact hall3 x h

theorem runRequestHandlers_finalized (cfg : ChainCfg) (excHs : List ExcHandlerSpec)
    (hs : List HandlerSpec) (s : ChainState)
    (hreq : ∀ p ∈ hs, PreservesFinalized p.2)
    (hexc : ∀ p ∈ excHs, ExcPreservesFinalized p.2) :
    (runRequestHandlers cfg excHs hs s).1.vis.finalized = s.vis.finalized := by
  induction hs generalizing s with
  | nil => simp [runRequestHandlers]
  | cons p rest ih =>
    obtain ⟨i, b⟩ := p
    have hb : PreservesFinalized b := hreq (i, b) (by simp)
    have hrest : ∀ p ∈ rest, PreservesFinalized p.2 := fun p hm => hreq p (by simp [hm])
    have hf := reqStep_finalized cfg excHs i b s hb hexc
    rw [show runRequestHandlers cfg excHs ((i, b) :: rest) s
      = reqDecide (runRequestHandlers cfg excHs rest) (reqStep cfg excHs i b s) from rfl]
    set s2 := reqStep cfg excHs i b s with hs2def
    unfold reqDecide
    cases herr : s2.vis.error with
    | some err => simpa using hf
    | none =>
      by_cases hterm : s2.vis.terminated
      · simpa [hterm] using hf
      · by_cases hstop : s2.vis.stopped
        · simpa [hterm, hstop] using hf
        · simp [hterm, hstop]
          rw [ih _ hrest]
          simpa using hf

theorem runRequestHandlers_escaped_error (cfg : ChainCfg) (excHs : List ExcHandlerSpec)
    (hs : List HandlerSpec) (s : ChainState) (e : Exn)
    (h : (runRequestHandlers cfg excHs hs s).2 = ReqOutcome.escaped e) :
    (runRequestHandlers cfg excHs hs s).1.vis.error = some e := by
  induction hs generalizing s with
  | nil => simp [runRequestHandlers] at h
  | cons p rest ih =>
    obtain ⟨i, b⟩ := p
    rw [show runRequestHandlers cfg excHs ((i, b) :: rest) s
      = reqDecide (runRequestHandlers cfg excHs rest) (reqStep cfg excHs i b s) from rfl] at h ⊢
    set s2 := reqStep cfg excHs i b s with hs2def
    unfold reqDecide at h ⊢
    cases herr : s2.vis.error with
    | some err =>
      simp [herr] at h ⊢
      exact h
    | none =>
      by_cases hterm : s2.vis.terminated
      · simp [herr, hterm] at h
      · by_cases hstop : s2.vis.stopped
        · simp [herr, hterm, hstop] at h
        · simp [herr, hterm, hstop] at h ⊢
          exact ih _ h

theorem runRequestHandlers_no_escape (cfg : ChainCfg) (excHs : List ExcHandlerSpec)
    (hs : List HandlerSpec) (s : ChainState)
    (hcfg : cfg.raiseOnError = false)
    (hreq : ∀ p ∈ hs, PreservesError p.2)
    (hexc : ∀ p ∈ excHs, ExcPreservesError p.2)
    (hs0 : s.vis.error = Option.none) :
    (runRequestHandlers cfg excHs hs s).1.vis.error = Option.none ∧
      ((runRequestHandlers cfg excHs hs s).2 = ReqOutcome.terminatedRun ∨
        (runRequestHandlers cfg excHs hs s).2 = ReqOutcome.completed) := by
  induction hs generalizing s with
  | nil => simp [runRequestHandlers, hs0]
  | cons p rest ih =>
    obtain ⟨i, b⟩ := p
    have hb : PreservesError b := hreq (i, b) (by simp)
    have hrest : ∀ p ∈ rest, PreservesError p.2 := fun p hm => hreq p (by simp [hm])
    have he := reqStep_error_none cfg excHs i b s hcfg hb hexc hs0
    rw [show runRequestHandlers cfg excHs ((i, b) :: rest) s
      = reqDecide (runRequestHandlers cfg excHs rest) (reqStep cfg excHs i b s) from rfl]
    set s2 := reqStep cfg excHs i b s with hs2def
    unfold reqDecide
    rw [he]
    by_cases hterm : s2.vis.terminated
    · simp [hterm, he]
    · by_cases hstop : s2.vis.stopped
      · simp [hterm, hstop, he]
      · simpa [hterm, hstop] using ih _ hrest he

/-- Running a control-neutral prefix of request handlers only records the
invocations and possibly mutates the response; the loop then continues with
the remaining handlers. -/
theorem runRequestHandlers_neutral_append (cfg : ChainCfg) (excHs : List ExcHandlerSpec)
    (pre rest : List HandlerSpec) (s : ChainState)
    (hpre : ∀ p ∈ pre, NeutralB p.2)
    (hstop : s.vis.stopped = false) (hterm : s.vis.terminated = false)
    (herr : s.vis.error = Option.none) :
    ∃ v1 : Visible,
      runRequestHandlers cfg excHs (pre ++ rest) s
        = runRequestHandlers cfg excHs rest
            { vis := v1, log := s.log, trace := s.trace ++ pre.map (fun p => (Phase.req, p.1)) } ∧
      v1.stopped = false ∧ v1.terminated = false ∧ v1.error = Option.none ∧
      v1.finalized = s.vis.finalized := by
  induction pre generalizing s with
  | nil => exact ⟨s.vis, by simp, hstop, hterm, herr, rfl⟩
  | cons p rest2 ih =>
    obtain ⟨i, b⟩ := p
    obtain ⟨hpstop, hpterm, hperr, hpfin, hpraise⟩ := hpre (i, b) (by simp)
    have hrest2 : ∀ p ∈ rest2, NeutralB p.2 := fun p hm => hpre p (by simp [hm])
    have hb1 : ((b s.vis).1).stopped = false := by rw [hpstop s.vis]; exact hstop
    have hb2 : ((b s.vis).1).terminated = false := by rw [hpterm s.vis]; exact hterm
    have hb3 : ((b s.vis).1).error = Option.none := by rw [hperr s.vis]; exact herr
    obtain ⟨v1, hrun, hv1, hv2, hv3, hv4⟩ := ih
      { s with vis := (b s.vis).1, trace := s.trace ++ [(Phase.req, i)] }
      hrest2 hb1 hb2 hb3
    refine ⟨v1, ?_, hv1, hv2, hv3, by rw [hv4]; simpa using hpfin s.vis⟩
    rw [List.cons_append]
    rw [show runRequestHandlers cfg excHs ((i, b) :: (rest2 ++ rest)) s
      = reqDecide (runRequestHandlers cfg excHs (rest2 ++ rest)) (reqStep cfg excHs i b s)
      from rfl]
    rw [reqStep_none cfg excHs i b s (hpraise s.vis)]
    unfold reqDecide
    simp [hb1, hb2, hb3]
    rw [hrun]
    simp

theorem finallyStep_of_not_finalized (finHs : List HandlerSpec) (s : ChainState)
    (h : s.vis.finalized = false) : finallyStep finHs s = callFinalizers finHs s := by
  simp [finallyStep, h]

theorem finallyStep_error (finHs : List HandlerSpec) (s : ChainState)
    (hp : ∀ p ∈ finHs, PreservesError p.2) :
    (finallyStep finHs s).vis.error = s.vis.error := by
  by_cases h : s.vis.finalized = true
  · simp [finallyStep, h]
  · simp only [Bool.not_eq_true] at h
    rw [finallyStep_of_not_finalized finHs s h]
    exact callFinalizers_error finHs s hp

theorem finallyStep_stopped (finHs : List HandlerSpec) (s : ChainState)
    (hp : ∀ p ∈ finHs, PreservesStopped p.2) :
    (finallyStep finHs s).vis.stopped = s.vis.stopped := by
  by_cases h : s.vis.finalized = true
  · simp [finallyStep, h]
  · simp only [Bool.not_eq_true] at h
    rw [finallyStep_of_not_finalized finHs s h]
    exact callFinalizers_stopped finHs s hp

theorem finallyStep_resp (finHs : List HandlerSpec) (s : ChainState)
    (hp : ∀ p ∈ finHs, PreservesResp p.2) :
    (finallyStep finHs s).vis.resp = s.vis.resp := by
  by_cases h : s.vis.finalized = true
  · simp [finallyStep, h]
  · simp only [Bool.not_eq_true] at h
    rw [finallyStep_of_not_finalized finHs s h]
    exact callFinalizers_resp finHs s hp

/-- A response handler calling chain.throw(e) records the error and the loop
simply continues with the remaining handlers. -/
theorem callResponseHandlers_throw_mid (rpre rpost : List HandlerSpec) (k : Nat) (e : Exn)
    (s : ChainState) (hp : ∀ p ∈ rpre, PreservesTerminated p.2)
    (ht : s.vis.terminated = false) :
    callResponseHandlers (rpre ++ (k, throwBehavior e) :: rpost) s
      = callResponseHandlers rpost
          { vis := { (callResponseHandlers rpre s).vis with error := some e },
            log := (callResponseHandlers rpre s).log,
            trace := (callResponseHandlers rpre s).trace ++ [(Phase.resp, k)] } := by
  rw [callResponseHandlers_append rpre _ s hp ht]
  have ht1 : (callResponseHandlers rpre s).vis.terminated = false := by
    rw [callResponseHandlers_terminated rpre s hp]; exact ht
  simp [callResponseHandlers, invokeAt, ht1, throwBehavior]

/-- A control-neutral prefix followed by a handler that calls chain.stop():
the loop ends with the completed outcome and only the prefix and the stopping
handler were invoked. -/
theorem runRequestHandlers_stop_run (cfg : ChainCfg) (excHs : List ExcHandlerSpec)
    (pre post : List HandlerSpec) (i : Nat) (resp0 : Resp)
    (hpre : ∀ p ∈ pre, NeutralB p.2) :
    ∃ v1 : Visible,
      runRequestHandlers cfg excHs (pre ++ (i, stopBehavior) :: post) (initState resp0)
        = ({ vis := { v1 with stopped := true }, log := [],
             trace := pre.map (fun p => (Phase.req, p.1)) ++ [(Phase.req, i)] },
           ReqOutcome.completed)
      ∧ v1.terminated = false ∧ v1.error = Option.none ∧ v1.finalized = false := by
  obtain ⟨v1, hrun, hv1, hv2, hv3, hv4⟩ := runRequestHandlers_neutral_append cfg excHs pre
    ((i, stopBehavior) :: post) (initState resp0) hpre rfl rfl rfl
  refine ⟨v1, ?_, hv2, hv3, by simpa [initState] using hv4⟩
  rw [hrun]
  rw [show runRequestHandlers cfg excHs ((i, stopBehavior) :: post)
      { vis := v1, log := (initState resp0).log,
        trace := (initState resp0).trace ++ pre.map (fun p => (Phase.req, p.1)) }
    = reqDecide (runRequestHandlers cfg excHs post)
        (reqStep cfg excHs i stopBehavior
          { vis := v1, log := (initState resp0).log,
            trace := (initState resp0).trace ++ pre.map (fun p => (Phase.req, p.1)) })
    from rfl]
  rw [reqStep_none cfg excHs i stopBehavior _ rfl]
  unfold reqDecide
  simp [stopBehavior, hv2, hv3, initState]

/-- A control-neutral prefix followed by a handler that calls
chain.terminate(): the loop returns with the terminated outcome and only the
prefix and the terminating handler were invoked. -/
theorem runRequestHandlers_terminate_run (cfg : ChainCfg) (excHs : List ExcHandlerSpec)
    (pre post : List HandlerSpec) (i : Nat) (resp0 : Resp)
    (hpre : ∀ p ∈ pre, NeutralB p.2) :
    ∃ v1 : Visible,
      runRequestHandlers cfg excHs (pre ++ (i, terminateBehavior) :: post) (initState resp0)
        = ({ vis := { v1 with terminated := true }, log := [],
             trace := pre.map (fun p => (Phase.req, p.1)) ++ [(Phase.req, i)] },
           ReqOutcome.terminatedRun)
      ∧ v1.stopped = false ∧ v1.error = Option.none ∧ v1.finalized = false := by
  obtain ⟨v1, hrun, hv1, hv2, hv3, hv4⟩ := runRequestHandlers_neutral_append cfg excHs pre
    ((i, terminateBehavior) :: post) (initState resp0) hpre rfl rfl rfl
  refine ⟨v1, ?_, hv1, hv3, by simpa [initState] using hv4⟩
  rw [hrun]
  rw [show runRequestHandlers cfg excHs ((i, terminateBehavior) :: post)
      { vis := v1, log := (initState resp0).log,
        trace := (initState resp0).trace ++ pre.map (fun p => (Phase.req, p.1)) }
    = reqDecide (runRequestHandlers cfg excHs post)
        (reqStep cfg excHs i terminateBehavior
          { vis := v1, log := (initState resp0).log,
            trace := (initState resp0).trace ++ pre.map (fun p => (Phase.req, p.1)) })
    from rfl]
  rw [reqStep_none cfg excHs i terminateBehavior _ rfl]
  unfold reqDecide
  simp [terminateBehavior, hv3, initState]

/-- A response handler calling chain.terminate() makes the response loop skip
everything after it. -/
theorem callResponseHandlers_terminate_mid (rpre rpost : List HandlerSpec) (k : Nat)
    (s : ChainState) (hp : ∀ p ∈ rpre, PreservesTerminated p.2)
    (ht : s.vis.terminated = false) :
    callResponseHandlers (rpre ++ (k, terminateBehavior) :: rpost) s
      = { vis := { (callResponseHandlers rpre s).vis with terminated := true },
          log := (callResponseHandlers rpre s).log,
          trace := (callResponseHandlers rpre s).trace ++ [(Phase.resp, k)] } := by
  rw [callResponseHandlers_append rpre ((k, terminateBehavior) :: rpost) s hp ht]
  have ht1 : (callResponseHandlers rpre s).vis.terminated = false := by
    rw [callResponseHandlers_terminated rpre s hp]; exact ht
  have hstep : callResponseHandlers ((k, terminateBehavior) :: rpost) (callResponseHandlers rpre s)
      = callResponseHandlers rpost
          { vis := { (callResponseHandlers rpre s).vis with terminated := true },
            log := (callResponseHandlers rpre s).log,
            trace := (callResponseHandlers rpre s).trace ++ [(Phase.resp, k)] } := by
    simp [callResponseHandlers, invokeAt, ht1, terminateBehavior]
  rw [hstep, callResponseHandlers_of_terminated _ _ rfl]

theorem handleFinish_eq (respHs finHs : List HandlerSpec) (r : ChainState × ReqOutcome) :
    handleFinish respHs finHs r =
      match r.2 with
      | .escaped e => (finallyStep finHs r.1, some e)
      | .terminatedRun => (finallyStep finHs r.1, Option.none)
      | .completed => (finallyStep finHs (callResponseHandlers respHs r.1), Option.none) := by
  obtain ⟨s1, o⟩ := r
  cases o <;> rfl

end HandlerChain

/-- Every entry of a tag list carries the tag's phase. -/
theorem tags_phase (ph : Phase) (hs : List (Nat × α)) :
    ∀ x ∈ hs.map (fun p => (ph, p.1)), x.1 = ph := by
  intro x hx
  obtain ⟨q, _, hq⟩ := List.mem_map.mp hx
  rw [← hq]

/-- If the handler identifiers are distinct, a handler of the skipped suffix
does not occur in a trace made of the invoked prefix, the control handler and
entries of other phases. -/
theorem not_mem_tag_of_nodup (ph : Phase) (pre post : List HandlerSpec) (i : Nat)
    (extra : List (Phase × Nat))
    (hnd : (pre.map Prod.fst ++ i :: post.map Prod.fst).Nodup)
    (hextra : ∀ x ∈ extra, x.1 ≠ ph)
    (p : HandlerSpec) (hp : p ∈ post) :
    (ph, p.1) ∉ pre.map (fun q => (ph, q.1)) ++ [(ph, i)] ++ extra := by
  intro hmem
  rw [List.nodup_append] at hnd
  rcases List.mem_append.mp hmem with hmem1 | hmem2
  · rcases List.mem_append.mp hmem1 with hpre1 | hsing
    · obtain ⟨q, hq, hqe⟩ := List.mem_map.mp hpre1
      have hq1 : q.1 = p.1 := congrArg Prod.snd hqe
      exact hnd.2.2 (hq1 ▸ List.mem_map_of_mem Prod.fst hq)
        (List.mem_cons_of_mem _ (List.mem_map_of_mem Prod.fst hp))
    · have hpi : p.1 = i := congrArg Prod.snd (List.mem_singleton.mp hsing)
      have h2 := hnd.2.1
      rw [List.nodup_cons] at h2
      exact h2.1 (hpi ▸ List.mem_map_of_mem Prod.fst hp)
  · exact hextra _ hmem2 rfl

/-- Counting a tag in the tag list of a handler list counts the identifier. -/
theorem count_tags (ph : Phase) (hs : List HandlerSpec) (n : Nat) :
    (hs.map (fun p => (ph, p.1))).count (ph, n) = (hs.map Prod.fst).count n := by
  induction hs with
  | nil => simp
  | cons p rest ih =>
    simp only [List.map_cons, List.count_cons, ih]
    by_cases h : p.1 = n <;> simp [h]

theorem count_zero_of_ne_phase (ext : List (Phase × Nat)) (ph : Phase) (n : Nat)
    (h : ∀ x ∈ ext, x.1 ≠ ph) : ext.count (ph, n) = 0 := by
  rw [List.count_eq_zero]
  intro hmem
  exact h _ hmem rfl

/-! ### Header merge lemmas -/

theorem find?_setHeader_map_other (k v k2 : String) (hne : k2 ≠ k)
    (hs : List (String × String)) :
    (hs.map (fun kv => if kv.1 == k then (k, v) else kv)).find? (fun kv => kv.1 == k2)
      = hs.find? (fun kv => kv.1 == k2) := by
  induction hs with
  | nil => rfl
  | cons kv0 rest ih =>
    simp only [List.map_cons]
    by_cases h1 : kv0.1 = k
    · have e2 : ((k, v).1 == k2) = false := beq_eq_false_iff_ne.mpr (Ne.symm hne)
      have e3 : (kv0.1 == k2) = false := beq_eq_false_iff_ne.mpr (h1 ▸ Ne.symm hne)
      rw [if_pos (by simp [h1])]
      rw [List.find?_cons_of_neg _ (by simp [e2]), List.find?_cons_of_neg _ (by simp [e3])]
      exact ih
    · rw [if_neg (by simp [h1])]
      by_cases h2 : kv0.1 = k2
      · rw [List.find?_cons_of_pos _ (by simp [h2]), List.find?_cons_of_pos _ (by simp [h2])]
      · rw [List.find?_cons_of_neg _ (by simp [h2]), List.find?_cons_of_neg _ (by simp [h2])]
        exact ih

theorem find?_setHeader_map_self (k v : String) (hs : List (String × String))
    (h : hs.any (fun kv => kv.1 == k)) :
    (hs.map (fun kv => if kv.1 == k then (k, v) else kv)).find? (fun kv => kv.1 == k)
      = some (k, v) := by
  induction hs with
  | nil => simp at h
  | cons kv0 rest ih =>
    simp only [List.map_cons]
    by_cases h1 : kv0.1 = k
    · rw [if_pos (by simp [h1])]
      rw [List.find?_cons_of_pos _ (by simp)]
    · rw [if_neg (by simp [h1])]
      rw [List.find?_cons_of_neg _ (by simp [h1])]
      refine ih ?_
      rcases List.any_eq_true.mp h with ⟨x, hx, hbx⟩
      rcases List.mem_cons.mp hx with h2 | h2
      · exact absurd (by simpa using (h2 ▸ hbx : (kv0.1 == k) = true)) h1
      · exact List.any_eq_true.mpr ⟨x, h2, hbx⟩

/-- Looking a key up after Headers.set: the set key now maps to the new value,
every other key is untouched. -/
theorem headerValue_setHeader (hs : List (String × String)) (k v k2 : String) :
    headerValue (setHeader hs k v) k2 = if k2 = k then some v else headerValue hs k2 := by
  unfold setHeader headerValue
  by_cases hany : hs.any (fun kv => kv.1 == k)
  · rw [if_pos hany]
    by_cases h2 : k2 = k
    · rw [if_pos h2, h2, find?_setHeader_map_self k v hs hany]
      rfl
    · rw [if_neg h2, find?_setHeader_map_other k v k2 h2 hs]
  · rw [if_neg hany]
    have hnone : hs.find? (fun kv => kv.1 == k) = Option.none := by
      rw [List.find?_eq_none]
      intro x hx hbx
      exact hany (List.any_eq_true.mpr ⟨x, hx, hbx⟩)
    by_cases h2 : k2 = k
    · rw [if_pos h2, h2, List.find?_append, hnone]
      simp
    · rw [if_neg h2, List.find?_append]
      have h3 : ([(k, v)].find? (fun kv => kv.1 == k2)) = Option.none := by
        simp [beq_eq_false_iff_ne.mpr (Ne.symm h2)]
      rw [h3]
      simp

theorem headersUpdate_lookup_of_not_mem (extra : List (String × String)) (k : String)
    (hs : List (String × String)) (h : k ∉ extra.map Prod.fst) :
    headerValue (headersUpdate hs extra) k = headerValue hs k := by
  induction extra generalizing hs with
  | nil => rfl
  | cons kv0 rest ih =>
    have hk0 : k ≠ kv0.1 := by
      intro he
      exact h (by rw [he]; exact List.mem_map_of_mem Prod.fst (by simp))
    have hrest : k ∉ rest.map Prod.fst := fun hm => h (by simp [hm])
    rw [show headersUpdate hs (kv0 :: rest) = headersUpdate (setHeader hs kv0.1 kv0.2) rest
      from rfl]
    rw [ih _ hrest, headerValue_setHeader, if_neg hk0]

/-- Headers.update makes every key of the extra headers map to its new value
(keys given once in the extra headers). -/
theorem headersUpdate_lookup (extra : List (String × String))
    (hnd : (extra.map Prod.fst).Nodup) (hs : List (String × String)) (k v : String)
    (hmem : (k, v) ∈ extra) :
    headerValue (headersUpdate hs extra) k = some v := by
  induction extra generalizing hs with
  | nil => simp at hmem
  | cons kv0 rest ih =>
    rw [show headersUpdate hs (kv0 :: rest) = headersUpdate (setHeader hs kv0.1 kv0.2) rest
      from rfl]
    rcases List.mem_cons.mp hmem with h1 | h1
    · have hkk : k = kv0.1 := congrArg Prod.fst h1
      have hvv : kv0.2 = v := (congrArg Prod.snd h1).symm
      have hk : k ∉ rest.map Prod.fst := by
        rw [List.map_cons, List.nodup_cons] at hnd
        rw [hkk]
        exact hnd.1
      rw [headersUpdate_lookup_of_not_mem rest k _ hk, headerValue_setHeader,
        if_pos hkk, hvv]
    · rw [List.map_cons, List.nodup_cons] at hnd
      exact ih hnd.2 _ h1

/-! ### Router lemmas -/

namespace Routing

theorem foldl_add (l : List Rule) (m : UrlMap) :
    l.foldl UrlMap.add m
      = { cfg := m.cfg, rules := m.rules ++ l.map (fun r => { r with bound := true }) } := by
  induction l generalizing m with
  | nil => simp
  | cons r rest ih =>
    rw [List.foldl_cons, ih]
    simp [UrlMap.add]

theorem foldl_add_empty (l : List Rule) (m : UrlMap) :
    l.foldl (fun n r => n.add r.empty) m
      = { cfg := m.cfg, rules := m.rules ++ l.map (fun r => { r with bound := true }) } := by
  induction l generalizing m with
  | nil => simp
  | cons r rest ih =>
    rw [List.foldl_cons, ih]
    simp [UrlMap.add, Rule.empty]

theorem cloneMapWithRules_eq (m : UrlMap) :
    cloneMapWithRules m
      = { cfg := m.cfg, rules := m.rules.map (fun r => { r with bound := true }) } := by
  unfold cloneMapWithRules cloneMapWithoutRules
  rw [foldl_add_empty]
  simp

theorem foldl_filter_add (p : Rule → Bool) (l : List Rule) (m : UrlMap) :
    l.foldl (fun n o => if p o then n else n.add o.empty) m
      = { cfg := m.cfg,
          rules := m.rules ++ (l.filter (fun o => !p o)).map (fun r => { r with bound := true }) } := by
  induction l generalizing m with
  | nil => simp
  | cons r rest ih =>
    rw [List.foldl_cons]
    by_cases hp : p r = true
    · rw [if_pos hp, ih]
      simp [List.filter_cons, hp]
    · rw [if_neg hp, ih]
      simp only [Bool.not_eq_true] at hp
      simp [List.filter_cons, hp, UrlMap.add, Rule.empty]

/-- Two router states with the same current map dispatch identically. -/
theorem dispatch_congr (ms1 ms2 : RouterState) (D : Dispatcher) (req : HttpRequest)
    (h : ms1.current = ms2.current) : ms1.dispatch D req = ms2.dispatch D req := by
  unfold RouterState.dispatch RouterState.dispatchMatch
  rw [h]

/-- The current map of a router whose reference points into the preserved
prefix of the store. -/
theorem current_append (ms : List UrlMap) (m : UrlMap) (j : Nat) (hj : j < ms.length) :
    ({ maps := ms ++ [m], urlMap := j } : RouterState).current
      = ({ maps := ms, urlMap := j } : RouterState).current := by
  unfold RouterState.current
  exact List.getD_append ms [m] emptyRouterMap j hj

theorem current_last (ms : List UrlMap) (m : UrlMap) :
    ({ maps := ms ++ [m], urlMap := ms.length } : RouterState).current = m := by
  unfold RouterState.current
  rw [List.getD_append_right ms [m] emptyRouterMap ms.length (Nat.le_refl _)]
  simp

theorem flatMap_one_pass (q : RuleAttr → Bool) (f : Nat × RuleAttr → List Rule)
    (n : Nat) (attrs : List RuleAttr) :
    attrs.flatMap (fun a => if q a then f (n, a) else [])
      = ((attrs.map (fun a => (n, a))).filter (fun x => q x.2)).flatMap f := by
  induction attrs with
  | nil => rfl
  | cons a rest ih =>
    simp only [List.flatMap_cons, List.map_cons, List.filter_cons]
    by_cases hq : q a = true
    · simp [hq, ih]
    · simp only [Bool.not_eq_true] at hq
      simp [hq, ih]

theorem flatMap_two_pass (q : RuleAttr → Bool) (f : Nat × RuleAttr → List Rule)
    (es : List EndpointObj) :
    es.flatMap (fun ep => ep.attrs.flatMap (fun a => if q a then f (ep.id, a) else []))
      = ((attrsFlat es).filter (fun x => q x.2)).flatMap f := by
  induction es with
  | nil => rfl
  | cons ep rest ih =>
    rw [show attrsFlat (ep :: rest) = ep.attrs.map (fun a => (ep.id, a)) ++ attrsFlat rest
      from rfl]
    simp only [List.flatMap_cons, List.filter_append, List.flatMap_append, ih]
    rw [flatMap_one_pass]

/-- _EndpointsObject.get_rules in one equation: first the rules of all
attributes with an explicit HEAD method, then all others, each pass in scan
order. -/
theorem endpointsObjectGetRules_two_pass (cfg : MapCfg) (es : List EndpointObj) :
    endpointsObjectGetRules cfg es
      = ((attrsFlat es).filter (fun x => attrHasHead x.2)).flatMap
          (fun x => endpointRuleGetRules cfg x.2.path x.1 x.2.host x.2.methods)
        ++ ((attrsFlat es).filter (fun x => !attrHasHead x.2)).flatMap
          (fun x => endpointRuleGetRules cfg x.2.path x.1 x.2.host x.2.methods) := by
  unfold endpointsObjectGetRules
  congr 1
  · rw [← flatMap_two_pass]
  · rw [← flatMap_two_pass (fun a => !attrHasHead a)
      (fun x => endpointRuleGetRules cfg x.2.path x.1 x.2.host x.2.methods) es]
    congr 1
    funext ep
    congr 1
    funext a
    cases h : attrHasHead a <;> simp [h]

end Routing

/-! ### Claims -/

open HandlerChain
open Routing

/-- C1. Failure isolation in the three catching loops of the HandlerChain.
The finalizer loop and the exception-handler loop invoke every handler in
order no matter what any handler does, raising included; the response-handler
loop invokes every handler provided none of them terminates the chain
(terminate is the one documented way to leave that loop early); a handler of
any of these loops that raises has its exception recorded in the chain's log
and discarded, and the handlers after it still run. None of the three loops
can propagate an exception: each returns a plain ChainState, because the
try/except of the code is the catch built into their definitions. -/
theorem claim_C1_failure_isolation (s : ChainState) (e0 e1 : Exn) (i j : Nat)
    (b : Behavior) (be : ExcBehavior)
    (finHs respHs : List HandlerSpec) (excHs : List ExcHandlerSpec)
    (pre post rpre rpost : List HandlerSpec) (epre epost : List ExcHandlerSpec) :
    ((callFinalizers finHs s).trace = s.trace ++ finTags finHs)
    ∧ ((callExceptionHandlers e0 excHs s).trace = s.trace ++ excTags excHs)
    ∧ ((∀ p ∈ respHs, PreservesTerminated p.2) → s.vis.terminated = false →
        (callResponseHandlers respHs s).trace = s.trace ++ respTags respHs)
    ∧ ((b (callFinalizers pre s).vis).2 = some e0 →
        (Phase.fin, e0) ∈ (callFinalizers (pre ++ (i, b) :: post) s).log)
    ∧ ((be e0 (callExceptionHandlers e0 epre s).vis).2 = some e1 →
        (Phase.exc, e1) ∈ (callExceptionHandlers e0 (epre ++ (j, be) :: epost) s).log)
    ∧ ((∀ p ∈ rpre, PreservesTerminated p.2) → s.vis.terminated = false →
        (b (callResponseHandlers rpre s).vis).2 = some e0 →
        (Phase.resp, e0) ∈ (callResponseHandlers (rpre ++ (i, b) :: rpost) s).log) := by
  refine ⟨callFinalizers_trace finHs s, callExceptionHandlers_trace e0 excHs s,
    fun hp ht => callResponseHandlers_trace respHs s hp ht, ?_, ?_, ?_⟩
  · intro hraise
    rw [callFinalizers_append]
    have hstep : callFinalizers ((i, b) :: post) (callFinalizers pre s)
        = callFinalizers post
            { vis := (b (callFinalizers pre s).vis).1,
              log := (callFinalizers pre s).log ++ [(Phase.fin, e0)],
              trace := (callFinalizers pre s).trace ++ [(Phase.fin, i)] } := by
      simp [callFinalizers, invokeAt, hraise]
    rw [hstep]
    obtain ⟨ext, hext⟩ := callFinalizers_log_ext post _
    rw [hext]
    simp
  · intro hraise
    rw [callExceptionHandlers_append]
    have hstep : callExceptionHandlers e0 ((j, be) :: epost) (callExceptionHandlers e0 epre s)
        = callExceptionHandlers e0 epost
            { vis := (be e0 (callExceptionHandlers e0 epre s).vis).1,
              log := (callExceptionHandlers e0 epre s).log ++ [(Phase.exc, e1)],
              trace := (callExceptionHandlers e0 epre s).trace ++ [(Phase.exc, j)] } := by
      simp [callExceptionHandlers, invokeExcAt, hraise]
    rw [hstep]
    obtain ⟨ext, hext⟩ := callExceptionHandlers_log_ext e0 epost _
    rw [hext]
    simp
  · intro hp ht hraise
    rw [callResponseHandlers_append rpre ((i, b) :: rpost) s hp ht]
    have ht1 : (callResponseHandlers rpre s).vis.terminated = false := by
      rw [callResponseHandlers_terminated rpre s hp]; exact ht
    have hstep : callResponseHandlers ((i, b) :: rpost) (callResponseHandlers rpre s)
        = callResponseHandlers rpost
            { vis := (b (callResponseHandlers rpre s).vis).1,
              log := (callResponseHandlers rpre s).log ++ [(Phase.resp, e0)],
              trace := (callResponseHandlers rpre s).trace ++ [(Phase.resp, i)] } := by
      simp [callResponseHandlers, invokeAt, hraise, ht1]
    rw [hstep]
    obtain ⟨ext, hext⟩ := callResponseHandlers_log_ext rpost _
    rw [hext]
    simp

/-- C3. Stop and terminate semantics. A request handler calling chain.stop()
skips the remaining request handlers while every response handler and every
finalizer still runs; a request handler calling chain.terminate() skips the
remaining request handlers and all response handlers while the finalizers
still run; a response handler calling chain.terminate() skips the remaining
response handlers. The surrounding handlers are control-neutral (they may
mutate the response but leave the control flags alone), which is the situation
the claim describes. -/
theorem claim_C3_stop_terminate_semantics
    (cfg : ChainCfg) (excHs : List ExcHandlerSpec)
    (pre post respHs finHs rpre rpost : List HandlerSpec)
    (i k : Nat) (resp0 : Resp)
    (hpre : ∀ p ∈ pre, NeutralB p.2)
    (hrespT : ∀ p ∈ respHs, PreservesTerminated p.2)
    (hrespF : ∀ p ∈ respHs, PreservesFinalized p.2)
    (hrpreT : ∀ p ∈ rpre, PreservesTerminated p.2)
    (hrpreF : ∀ p ∈ rpre, PreservesFinalized p.2) :
    ((handle cfg (pre ++ (i, stopBehavior) :: post) excHs respHs finHs resp0).1.trace
        = reqTags pre ++ [(Phase.req, i)] ++ respTags respHs ++ finTags finHs
      ∧ (handle cfg (pre ++ (i, stopBehavior) :: post) excHs respHs finHs resp0).2
        = Option.none)
    ∧ ((handle cfg (pre ++ (i, terminateBehavior) :: post) excHs respHs finHs resp0).1.trace
        = reqTags pre ++ [(Phase.req, i)] ++ finTags finHs
      ∧ (handle cfg (pre ++ (i, terminateBehavior) :: post) excHs respHs finHs resp0).2
        = Option.none)
    ∧ ((handle cfg [] excHs (rpre ++ (k, terminateBehavior) :: rpost) finHs resp0).1.trace
        = respTags rpre ++ [(Phase.resp, k)] ++ finTags finHs)
    ∧ ((pre.map Prod.fst ++ i :: post.map Prod.fst).Nodup →
        ∀ p ∈ post, (Phase.req, p.1) ∉
          (handle cfg (pre ++ (i, stopBehavior) :: post) excHs respHs finHs resp0).1.trace)
    ∧ ((pre.map Prod.fst ++ i :: post.map Prod.fst).Nodup →
        ∀ p ∈ post, (Phase.req, p.1) ∉
          (handle cfg (pre ++ (i, terminateBehavior) :: post) excHs respHs finHs resp0).1.trace)
    ∧ (∀ x ∈ (handle cfg (pre ++ (i, terminateBehavior) :: post) excHs respHs finHs resp0).1.trace,
        x.1 ≠ Phase.resp)
    ∧ ((rpre.map Prod.fst ++ k :: rpost.map Prod.fst).Nodup →
        ∀ p ∈ rpost, (Phase.resp, p.1) ∉
          (handle cfg [] excHs (rpre ++ (k, terminateBehavior) :: rpost) finHs resp0).1.trace) := by
  obtain ⟨v1, hrunS, hv2, hv3, hv4⟩ :=
    runRequestHandlers_stop_run cfg excHs pre post i resp0 hpre
  obtain ⟨w1, hrunT, hw1, hw3, hw4⟩ :=
    runRequestHandlers_terminate_run cfg excHs pre post i resp0 hpre
  -- the state after the stop run
  have hA : handle cfg (pre ++ (i, stopBehavior) :: post) excHs respHs finHs resp0
      = (finallyStep finHs (callResponseHandlers respHs
          { vis := { v1 with stopped := true }, log := [],
            trace := pre.map (fun p => (Phase.req, p.1)) ++ [(Phase.req, i)] }), Option.none) := by
    unfold handle
    rw [hrunS]
    rfl
  have hB : handle cfg (pre ++ (i, terminateBehavior) :: post) excHs respHs finHs resp0
      = (finallyStep finHs
          { vis := { w1 with terminated := true }, log := [],
            trace := pre.map (fun p => (Phase.req, p.1)) ++ [(Phase.req, i)] }, Option.none) := by
    unfold handle
    rw [hrunT]
    rfl
  have hC : handle cfg [] excHs (rpre ++ (k, terminateBehavior) :: rpost) finHs resp0
      = (finallyStep finHs (callResponseHandlers (rpre ++ (k, terminateBehavior) :: rpost)
          (initState resp0)), Option.none) := rfl
  -- part A trace
  have hctA := callResponseHandlers_trace respHs
    { vis := { v1 with stopped := true }, log := [],
      trace := pre.map (fun p => (Phase.req, p.1)) ++ [(Phase.req, i)] } hrespT hv2
  have hcfA := callResponseHandlers_finalized respHs
    { vis := { v1 with stopped := true }, log := [],
      trace := pre.map (fun p => (Phase.req, p.1)) ++ [(Phase.req, i)] } hrespF
  have htraceA : (handle cfg (pre ++ (i, stopBehavior) :: post) excHs respHs finHs resp0).1.trace
      = reqTags pre ++ [(Phase.req, i)] ++ respTags respHs ++ finTags finHs := by
    rw [hA]
    simp only
    rw [finallyStep_of_not_finalized _ _ (by rw [hcfA]; exact hv4)]
    rw [callFinalizers_trace, hctA]
    simp [reqTags, respTags, finTags]
  -- part B trace
  have htraceB : (handle cfg (pre ++ (i, terminateBehavior) :: post) excHs respHs finHs resp0).1.trace
      = reqTags pre ++ [(Phase.req, i)] ++ finTags finHs := by
    rw [hB]
    simp only
    rw [finallyStep_of_not_finalized _ _ hw4]
    rw [callFinalizers_trace]
    simp [reqTags, finTags]
  -- part C trace
  have hmid := callResponseHandlers_terminate_mid rpre rpost k (initState resp0) hrpreT rfl
  have hctC := callResponseHandlers_trace rpre (initState resp0) hrpreT rfl
  have hcfC := callResponseHandlers_finalized rpre (initState resp0) hrpreF
  have htraceC : (handle cfg [] excHs (rpre ++ (k, terminateBehavior) :: rpost) finHs resp0).1.trace
      = respTags rpre ++ [(Phase.resp, k)] ++ finTags finHs := by
    rw [hC]
    simp only
    rw [hmid, finallyStep_of_not_finalized _ _ (by simpa [initState] using hcfC)]
    rw [callFinalizers_trace]
    simp only [ChainState.trace]
    rw [hctC]
    simp [respTags, finTags, initState]
  refine ⟨⟨htraceA, by rw [hA]⟩, ⟨htraceB, by rw [hB]⟩, htraceC, ?_, ?_, ?_, ?_⟩
  · intro hnd p hp
    rw [htraceA]
    simp only [reqTags, respTags, finTags]
    rw [List.append_assoc (List.map (fun q => (Phase.req, q.1)) pre ++ [(Phase.req, i)])]
    refine not_mem_tag_of_nodup Phase.req pre post i _ hnd ?_ p hp
    intro x hx
    rcases List.mem_append.mp hx with h | h
    · rw [tags_phase Phase.resp respHs x h]; simp
    · rw [tags_phase Phase.fin finHs x h]; simp
  · intro hnd p hp
    rw [htraceB]
    simp only [reqTags, finTags]
    refine not_mem_tag_of_nodup Phase.req pre post i _ hnd ?_ p hp
    intro x hx
    rw [tags_phase Phase.fin finHs x hx]
    simp
  · intro x hx
    rw [htraceB] at hx
    rcases List.mem_append.mp hx with h | h
    · rcases List.mem_append.mp h with h1 | h1
      · rw [tags_phase Phase.req pre x h1]; simp
      · rw [List.mem_singleton.mp h1]; simp
    · rw [tags_phase Phase.fin finHs x h]; simp
  · intro hnd p hp
    rw [htraceC]
    simp only [respTags, finTags]
    refine not_mem_tag_of_nodup Phase.resp rpre rpost k _ hnd ?_ p hp
    intro x hx
    rw [tags_phase Phase.fin finHs x hx]
    simp

/-- C2. Propagation policy and finalizer guarantee. With raise-on-error
disabled, if no handler records a pending error then nothing escapes handle;
when something does escape, it is exactly the chain's recorded pending error;
with raise-on-error enabled, a request-handler exception escapes handle after
every exception handler has run, the response handlers are skipped on that
abort path, and the finalizers still run; and in every outcome each registered
finalizer executes exactly once, whatever the handlers do (raising, stopping
and terminating included). -/
theorem claim_C2_propagation_and_finalizers
    (cfg : ChainCfg) (reqHs respHs finHs pre post : List HandlerSpec)
    (excHs : List ExcHandlerSpec) (resp0 : Resp) (i : Nat) (e : Exn) :
    ((cfg.raiseOnError = false) → (∀ p ∈ reqHs, PreservesError p.2) →
      (∀ p ∈ excHs, ExcPreservesError p.2) →
      (handle cfg reqHs excHs respHs finHs resp0).2 = Option.none)
    ∧ ((∀ p ∈ finHs, PreservesError p.2) →
      (handle cfg reqHs excHs respHs finHs resp0).2 = some e →
      (handle cfg reqHs excHs respHs finHs resp0).1.vis.error = some e)
    ∧ (cfg.raiseOnError = true → (∀ p ∈ pre, NeutralB p.2) →
      (∀ p ∈ excHs, ExcPreservesError p.2) → (∀ p ∈ excHs, ExcPreservesFinalized p.2) →
      (handle cfg (pre ++ (i, raiseBehavior e) :: post) excHs respHs finHs resp0).2 = some e
      ∧ (handle cfg (pre ++ (i, raiseBehavior e) :: post) excHs respHs finHs resp0).1.trace
          = reqTags pre ++ [(Phase.req, i)] ++ excTags excHs ++ finTags finHs)
    ∧ ((∀ p ∈ reqHs, PreservesFinalized p.2) → (∀ p ∈ excHs, ExcPreservesFinalized p.2) →
      (∀ p ∈ respHs, PreservesFinalized p.2) →
      ∀ n : Nat, ((handle cfg reqHs excHs respHs finHs resp0).1.trace).count (Phase.fin, n)
        = (finHs.map Prod.fst).count n) := by
  refine ⟨?_, ?_, ?_, ?_⟩
  · intro h1 h2 h3
    obtain ⟨herr, hout⟩ :=
      runRequestHandlers_no_escape cfg excHs reqHs (initState resp0) h1 h2 h3 rfl
    unfold handle
    rcases hout with h | h <;> simp [handleFinish_eq, h]
  · intro hfin hesc
    unfold handle at hesc ⊢
    cases ho : (runRequestHandlers cfg excHs reqHs (initState resp0)).2 with
    | escaped e2 =>
      have herr := runRequestHandlers_escaped_error cfg excHs reqHs (initState resp0) e2 ho
      rw [handleFinish_eq, ho] at hesc ⊢
      simp only [Option.some.injEq] at hesc
      simp only
      rw [finallyStep_error finHs _ hfin, herr, hesc]
    | terminatedRun => rw [handleFinish_eq, ho] at hesc; simp at hesc
    | completed => rw [handleFinish_eq, ho] at hesc; simp at hesc
  · intro hro hpre hexcE hexcF
    obtain ⟨v1, hrun, hv1, hv2, hv3, hv4⟩ := runRequestHandlers_neutral_append cfg excHs pre
      ((i, raiseBehavior e) :: post) (initState resp0) hpre rfl rfl rfl
    generalize hSlit : ({ vis := v1, log := (initState resp0).log, trace := (initState resp0).trace ++ pre.map (fun p => (Phase.req, p.1)) } : ChainState) = S1 at hrun
    have hS1vis : S1.vis = v1 := by rw [← hSlit]
    have hS1trace : S1.trace = (initState resp0).trace ++ pre.map (fun p => (Phase.req, p.1)) := by
      rw [← hSlit]
    have hstep := reqStep_some cfg excHs i (raiseBehavior e) S1 e rfl
    have herr2 : (reqStep cfg excHs i (raiseBehavior e) S1).vis.error = some e := by
      rw [hstep, callExceptionHandlers_error _ _ _ hexcE]
      cases hso : cfg.stopOnError <;> simp [hro, raiseBehavior]
    have hfin2 : (reqStep cfg excHs i (raiseBehavior e) S1).vis.finalized = false := by
      rw [reqStep_finalized cfg excHs i (raiseBehavior e) S1 (fun v => rfl) hexcF, hS1vis]
      simpa using hv4
    have htr2 : (reqStep cfg excHs i (raiseBehavior e) S1).trace
        = S1.trace ++ [(Phase.req, i)] ++ excTags excHs := by
      rw [hstep, callExceptionHandlers_trace]
      simp [excTags]
    have hrunfull : runRequestHandlers cfg excHs (pre ++ (i, raiseBehavior e) :: post)
        (initState resp0) = (reqStep cfg excHs i (raiseBehavior e) S1, ReqOutcome.escaped e) := by
      rw [hrun]
      rw [show runRequestHandlers cfg excHs ((i, raiseBehavior e) :: post) S1
        = reqDecide (runRequestHandlers cfg excHs post)
            (reqStep cfg excHs i (raiseBehavior e) S1) from rfl]
      unfold reqDecide
      rw [herr2]
    have hh : handle cfg (pre ++ (i, raiseBehavior e) :: post) excHs respHs finHs resp0
        = (finallyStep finHs (reqStep cfg excHs i (raiseBehavior e) S1), some e) := by
      unfold handle
      rw [hrunfull]
      rfl
    constructor
    · rw [hh]
    · rw [hh]
      simp only
      rw [finallyStep_of_not_finalized _ _ hfin2, callFinalizers_trace, htr2, hS1trace]
      simp [reqTags, finTags, initState]
  · intro hreqF hexcF hrespF n
    unfold handle
    obtain ⟨ext1, hext1, hall1⟩ := runRequestHandlers_trace_ext cfg excHs reqHs (initState resp0)
    have hfin1 : (runRequestHandlers cfg excHs reqHs (initState resp0)).1.vis.finalized = false := by
      rw [runRequestHandlers_finalized cfg excHs reqHs (initState resp0) hreqF hexcF]
      rfl
    have hcount1 : ext1.count (Phase.fin, n) = 0 := by
      refine count_zero_of_ne_phase ext1 Phase.fin n ?_
      intro x hx
      rcases hall1 x hx with h | h <;> rw [h] <;> simp
    cases ho : (runRequestHandlers cfg excHs reqHs (initState resp0)).2 with
    | escaped e2 =>
      rw [handleFinish_eq, ho]
      simp only
      rw [finallyStep_of_not_finalized _ _ hfin1, callFinalizers_trace, hext1]
      rw [List.count_append, List.count_append, hcount1]
      rw [show (finHs.map fun p => (Phase.fin, p.1)).count (Phase.fin, n)
        = (finHs.map Prod.fst).count n from count_tags Phase.fin finHs n]
      simp [initState]
    | terminatedRun =>
      rw [handleFinish_eq, ho]
      simp only
      rw [finallyStep_of_not_finalized _ _ hfin1, callFinalizers_trace, hext1]
      rw [List.count_append, List.count_append, hcount1]
      rw [show (finHs.map fun p => (Phase.fin, p.1)).count (Phase.fin, n)
        = (finHs.map Prod.fst).count n from count_tags Phase.fin finHs n]
      simp [initState]
    | completed =>
      rw [handleFinish_eq, ho]
      simp only
      obtain ⟨ext2, hext2, hall2⟩ :=
        callResponseHandlers_trace_ext respHs (runRequestHandlers cfg excHs reqHs (initState resp0)).1
      have hfin3 : (callResponseHandlers respHs
          (runRequestHandlers cfg excHs reqHs (initState resp0)).1).vis.finalized = false := by
        rw [callResponseHandlers_finalized _ _ hrespF]
        exact hfin1
      have hcount2 : ext2.count (Phase.fin, n) = 0 := by
        refine count_zero_of_ne_phase ext2 Phase.fin n ?_
        intro x hx
        rw [hall2 x hx]
        simp
      rw [finallyStep_of_not_finalized _ _ hfin3, callFinalizers_trace, hext2, hext1]
      rw [List.count_append, List.count_append, List.count_append, hcount1, hcount2]
      rw [show (finHs.map fun p => (Phase.fin, p.1)).count (Phase.fin, n)
        = (finHs.map Prod.fst).count n from count_tags Phase.fin finHs n]
      simp [initState]

/-- C10. chain.throw records a pending error that handle re-raises once the
throwing request handler returns normally: no exception handler and no
response handler is invoked on that path, the stopped flag is not implicitly
set, and the finalizers still run. Called from a response handler, throw has
no effect on the control flow - the remaining response handlers and the
finalizers run as usual, handle returns normally, and the recorded error is
never raised. -/
theorem claim_C10_throw_semantics
    (cfg : ChainCfg) (excHs : List ExcHandlerSpec)
    (pre post finHs rpre rpost respHs : List HandlerSpec)
    (i k : Nat) (resp0 : Resp) (e : Exn)
    (hpre : ∀ p ∈ pre, NeutralB p.2)
    (hfinS : ∀ p ∈ finHs, PreservesStopped p.2)
    (hfinE : ∀ p ∈ finHs, PreservesError p.2)
    (hrT : ∀ p ∈ rpre, PreservesTerminated p.2)
    (hrT2 : ∀ p ∈ rpost, PreservesTerminated p.2)
    (hrF : ∀ p ∈ rpre, PreservesFinalized p.2)
    (hrF2 : ∀ p ∈ rpost, PreservesFinalized p.2)
    (hrE2 : ∀ p ∈ rpost, PreservesError p.2) :
    ((handle cfg (pre ++ (i, throwBehavior e) :: post) excHs respHs finHs resp0).2 = some e
     ∧ (handle cfg (pre ++ (i, throwBehavior e) :: post) excHs respHs finHs resp0).1.trace
         = reqTags pre ++ [(Phase.req, i)] ++ finTags finHs
     ∧ (∀ x ∈ (handle cfg (pre ++ (i, throwBehavior e) :: post) excHs respHs finHs resp0).1.trace,
          x.1 ≠ Phase.exc ∧ x.1 ≠ Phase.resp)
     ∧ (handle cfg (pre ++ (i, throwBehavior e) :: post) excHs respHs finHs resp0).1.vis.stopped
         = false)
    ∧ ((handle cfg [] excHs (rpre ++ (k, throwBehavior e) :: rpost) finHs resp0).2 = Option.none
     ∧ (handle cfg [] excHs (rpre ++ (k, throwBehavior e) :: rpost) finHs resp0).1.trace
         = respTags rpre ++ [(Phase.resp, k)] ++ respTags rpost ++ finTags finHs
     ∧ (handle cfg [] excHs (rpre ++ (k, throwBehavior e) :: rpost) finHs resp0).1.vis.error
         = some e) := by
  obtain ⟨v1, hrun, hv1, hv2, hv3, hv4⟩ := runRequestHandlers_neutral_append cfg excHs pre
    ((i, throwBehavior e) :: post) (initState resp0) hpre rfl rfl rfl
  generalize hSlit : ({ vis := v1, log := (initState resp0).log, trace := (initState resp0).trace ++ pre.map (fun p => (Phase.req, p.1)) } : ChainState) = S1 at hrun
  have hS1vis : S1.vis = v1 := by rw [← hSlit]
  have hS1trace : S1.trace = (initState resp0).trace ++ pre.map (fun p => (Phase.req, p.1)) := by
    rw [← hSlit]
  have hS1log : S1.log = (initState resp0).log := by rw [← hSlit]
  have hstep := reqStep_none cfg excHs i (throwBehavior e) S1 rfl
  have herr2 : (reqStep cfg excHs i (throwBehavior e) S1).vis.error = some e := by
    rw [hstep]
    rfl
  have hfin2 : (reqStep cfg excHs i (throwBehavior e) S1).vis.finalized = false := by
    rw [hstep]
    show ((throwBehavior e S1.vis).1).finalized = false
    rw [show ((throwBehavior e S1.vis).1).finalized = S1.vis.finalized from rfl, hS1vis]
    simpa using hv4
  have hstop2 : (reqStep cfg excHs i (throwBehavior e) S1).vis.stopped = false := by
    rw [hstep]
    show ((throwBehavior e S1.vis).1).stopped = false
    rw [show ((throwBehavior e S1.vis).1).stopped = S1.vis.stopped from rfl, hS1vis]
    exact hv1
  have hrunfull : runRequestHandlers cfg excHs (pre ++ (i, throwBehavior e) :: post)
      (initState resp0) = (reqStep cfg excHs i (throwBehavior e) S1, ReqOutcome.escaped e) := by
    rw [hrun]
    rw [show runRequestHandlers cfg excHs ((i, throwBehavior e) :: post) S1
      = reqDecide (runRequestHandlers cfg excHs post)
          (reqStep cfg excHs i (throwBehavior e) S1) from rfl]
    unfold reqDecide
    rw [herr2]
  have hh : handle cfg (pre ++ (i, throwBehavior e) :: post) excHs respHs finHs resp0
      = (finallyStep finHs (reqStep cfg excHs i (throwBehavior e) S1), some e) := by
    unfold handle
    rw [hrunfull]
    rfl
  have htraceA : (handle cfg (pre ++ (i, throwBehavior e) :: post) excHs respHs finHs resp0).1.trace
      = reqTags pre ++ [(Phase.req, i)] ++ finTags finHs := by
    rw [hh]
    simp only
    rw [finallyStep_of_not_finalized _ _ hfin2, callFinalizers_trace, hstep]
    simp only [ChainState.trace]
    rw [hS1trace]
    simp [reqTags, finTags, initState]
  refine ⟨⟨by rw [hh], htraceA, ?_, ?_⟩, ?_⟩
  · intro x hx
    rw [htraceA] at hx
    rcases List.mem_append.mp hx with h | h
    · rcases List.mem_append.mp h with h1 | h1
      · rw [tags_phase Phase.req pre x (by simpa [reqTags] using h1)]
        simp
      · rw [List.mem_singleton.mp h1]
        simp
    · rw [tags_phase Phase.fin finHs x (by simpa [finTags] using h)]
      simp
  · rw [hh]
    simp only
    rw [finallyStep_stopped finHs _ hfinS]
    exact hstop2
  -- part (b): throw from a response handler
  · have hC : handle cfg [] excHs (rpre ++ (k, throwBehavior e) :: rpost) finHs resp0
        = (finallyStep finHs (callResponseHandlers (rpre ++ (k, throwBehavior e) :: rpost)
            (initState resp0)), Option.none) := rfl
    have hmid := callResponseHandlers_throw_mid rpre rpost k e (initState resp0) hrT rfl
    have hallT : ∀ p ∈ rpre ++ (k, throwBehavior e) :: rpost, PreservesTerminated p.2 := by
      intro p hp
      rcases List.mem_append.mp hp with h | h
      · exact hrT p h
      · rcases List.mem_cons.mp h with h1 | h1
        · rw [h1]; intro v; rfl
        · exact hrT2 p h1
    have hallF : ∀ p ∈ rpre ++ (k, throwBehavior e) :: rpost, PreservesFinalized p.2 := by
      intro p hp
      rcases List.mem_append.mp hp with h | h
      · exact hrF p h
      · rcases List.mem_cons.mp h with h1 | h1
        · rw [h1]; intro v; rfl
        · exact hrF2 p h1
    have htrC := callResponseHandlers_trace (rpre ++ (k, throwBehavior e) :: rpost)
      (initState resp0) hallT rfl
    have hfinC : (callResponseHandlers (rpre ++ (k, throwBehavior e) :: rpost)
        (initState resp0)).vis.finalized = false := by
      rw [callResponseHandlers_finalized _ _ hallF]
      rfl
    have herrC : (callResponseHandlers (rpre ++ (k, throwBehavior e) :: rpost)
        (initState resp0)).vis.error = some e := by
      rw [hmid, callResponseHandlers_error _ _ hrE2]
    refine ⟨by rw [hC], ?_, ?_⟩
    · rw [hC]
      simp only
      rw [finallyStep_of_not_finalized _ _ hfinC, callFinalizers_trace, htrC]
      simp [respTags, finTags, initState]
    · rw [hC]
      simp only
      rw [finallyStep_error finHs _ hfinE]
      exact herrC

/-- C9. chain.respond sets the response status code, serializes the payload
by its python type (dict/list to a JSON body with application/json mimetype,
str/bytes to the raw body, None to an empty body when the body has no content
yet), merges the extra headers into the response headers, and stops the
chain; in the concrete scenario a request handler calling respond(202, "ok")
yields status 202 and body "ok", later request handlers do not run, and
registered response handlers and finalizers still run. -/
theorem claim_C9_respond
    (v : Visible) (sc : Nat) (payload : PyVal) (hdrs : List (String × String))
    (kvs : List (String × JScalar)) (xs : List JScalar) (str0 : String)
    (cfg : ChainCfg) (excHs : List ExcHandlerSpec)
    (post respHs finHs : List HandlerSpec) (i : Nat) (k2 v2 : String)
    (hrespT : ∀ p ∈ respHs, PreservesTerminated p.2)
    (hrespF : ∀ p ∈ respHs, PreservesFinalized p.2)
    (hrespR : ∀ p ∈ respHs, PreservesResp p.2)
    (hfinR : ∀ p ∈ finHs, PreservesResp p.2) :
    (((respondBehavior sc payload hdrs v).1).resp.statusCode = sc)
    ∧ (((respondBehavior sc (.dict kvs) hdrs v).1).resp.body
        = .chunks [JValue.dumps (.obj kvs)]
      ∧ ((respondBehavior sc (.dict kvs) hdrs v).1).resp.mimetype = some "application/json")
    ∧ (((respondBehavior sc (.list xs) hdrs v).1).resp.body
        = .chunks [JValue.dumps (.arr xs)]
      ∧ ((respondBehavior sc (.list xs) hdrs v).1).resp.mimetype = some "application/json")
    ∧ (((respondBehavior sc (.str str0) hdrs v).1).resp.body = .chunks [str0]
      ∧ ((respondBehavior sc (.str str0) hdrs v).1).resp.mimetype = v.resp.mimetype)
    ∧ (v.resp.body.truthy = false →
        ((respondBehavior sc .none hdrs v).1).resp.body = .chunks [])
    ∧ (((respondBehavior sc payload hdrs v).1).stopped = true
      ∧ (respondBehavior sc payload hdrs v).2 = Option.none)
    ∧ ((hdrs.map Prod.fst).Nodup → (k2, v2) ∈ hdrs →
        headerValue (((respondBehavior sc payload hdrs v).1).resp.headers) k2 = some v2)
    ∧ (((handle cfg ((i, respondBehavior 202 (.str "ok") []) :: post) excHs respHs finHs
          Resp.default).2 = Option.none)
      ∧ (handle cfg ((i, respondBehavior 202 (.str "ok") []) :: post) excHs respHs finHs
          Resp.default).1.trace
        = [(Phase.req, i)] ++ respTags respHs ++ finTags finHs
      ∧ (handle cfg ((i, respondBehavior 202 (.str "ok") []) :: post) excHs respHs finHs
          Resp.default).1.vis.resp.statusCode = 202
      ∧ (handle cfg ((i, respondBehavior 202 (.str "ok") []) :: post) excHs respHs finHs
          Resp.default).1.vis.resp.body = .chunks ["ok"]) := by
  refine ⟨?_, ⟨rfl, rfl⟩, ⟨rfl, rfl⟩, ⟨rfl, rfl⟩, ?_, ?_, ?_, ?_⟩
  · cases payload <;>
      first
        | rfl
        | (simp only [respondBehavior]; split <;> rfl)
  · intro htr
    show (if PyVal.none = PyVal.none ∧ ¬({ v.resp with statusCode := sc }).body.truthy
      then { ({ v.resp with statusCode := sc } : Resp) with body := PyVal.chunks [] }
      else { ({ v.resp with statusCode := sc } : Resp) with body := PyVal.none }).body
        = PyVal.chunks []
    rw [if_pos ⟨rfl, by simpa using htr⟩]
  · constructor
    · cases payload <;> rfl
    · cases payload <;> rfl
  · intro hnd hmem
    exact headersUpdate_lookup hdrs hnd _ k2 v2 hmem
  · have hrun : runRequestHandlers cfg excHs
        ((i, respondBehavior 202 (PyVal.str "ok") []) :: post) (initState Resp.default)
        = (respondOkState i, ReqOutcome.completed) := rfl
    have hh : handle cfg ((i, respondBehavior 202 (PyVal.str "ok") []) :: post) excHs respHs
        finHs Resp.default
        = (finallyStep finHs (callResponseHandlers respHs (respondOkState i)), Option.none) := by
      unfold handle
      rw [hrun]
      rfl
    have hct := callResponseHandlers_trace respHs (respondOkState i) hrespT rfl
    have hcf := callResponseHandlers_finalized respHs (respondOkState i) hrespF
    have hcr := callResponseHandlers_resp respHs (respondOkState i) hrespR
    refine ⟨by rw [hh], ?_, ?_, ?_⟩
    · rw [hh]
      simp only
      rw [finallyStep_of_not_finalized _ _ (by rw [hcf]; rfl), callFinalizers_trace, hct]
      simp [respTags, finTags, respondOkState]
    · rw [hh]
      simp only
      rw [finallyStep_resp finHs _ hfinR, hcr]
      rfl
    · rw [hh]
      simp only
      rw [finallyStep_resp finHs _ hfinR, hcr]
      rfl

/-- Witness for C9 at concrete inputs: respond itself on a concrete visible
state, and the full scenario with one later request handler, one response
handler and one finalizer. -/
theorem claim_C9_respond_witness :
    (((respondBehavior 202 (.str "ok") [("X-Tag", "a")] (initState Resp.default).vis).1).resp.statusCode
      = 202)
    ∧ (((respondBehavior 202 (.dict [("id", .num 42)]) [] (initState Resp.default).vis).1).resp.body
      = .chunks ["\x7b\"id\": 42\x7d"])
    ∧ (headerValue (((respondBehavior 202 (.str "ok") [("X-Tag", "a")]
        (initState Resp.default).vis).1).resp.headers) "X-Tag" = some "a")
    ∧ ((handle {} ((1, respondBehavior 202 (.str "ok") []) :: [(2, noopBehavior)]) []
        [(3, noopBehavior)] [(4, noopBehavior)] Resp.default).2 = Option.none)
    ∧ ((handle {} ((1, respondBehavior 202 (.str "ok") []) :: [(2, noopBehavior)]) []
        [(3, noopBehavior)] [(4, noopBehavior)] Resp.default).1.trace
      = [(Phase.req, 1), (Phase.resp, 3), (Phase.fin, 4)])
    ∧ ((handle {} ((1, respondBehavior 202 (.str "ok") []) :: [(2, noopBehavior)]) []
        [(3, noopBehavior)] [(4, noopBehavior)] Resp.default).1.vis.resp.statusCode = 202)
    ∧ ((handle {} ((1, respondBehavior 202 (.str "ok") []) :: [(2, noopBehavior)]) []
        [(3, noopBehavior)] [(4, noopBehavior)] Resp.default).1.vis.resp.body
      = .chunks ["ok"]) := by
  have hT : ∀ p ∈ [((3 : Nat), noopBehavior)], PreservesTerminated p.2 := by
    intro p hp
    rw [List.mem_singleton.mp hp]
    intro v
    rfl
  have hF : ∀ p ∈ [((3 : Nat), noopBehavior)], PreservesFinalized p.2 := by
    intro p hp
    rw [List.mem_singleton.mp hp]
    intro v
    rfl
  have hR : ∀ p ∈ [((3 : Nat), noopBehavior)], PreservesResp p.2 := by
    intro p hp
    rw [List.mem_singleton.mp hp]
    intro v
    rfl
  have hR4 : ∀ p ∈ [((4 : Nat), noopBehavior)], PreservesResp p.2 := by
    intro p hp
    rw [List.mem_singleton.mp hp]
    intro v
    rfl
  have h1 := claim_C9_respond (initState Resp.default).vis 202 (.str "ok") [("X-Tag", "a")]
    [("id", .num 42)] [] "ok" {} [] [(2, noopBehavior)] [(3, noopBehavior)]
    [(4, noopBehavior)] 1 "X-Tag" "a" hT hF hR hR4
  have h2 := claim_C9_respond (initState Resp.default).vis 202 (.dict [("id", .num 42)]) []
    [("id", .num 42)] [] "ok" {} [] [(2, noopBehavior)] [(3, noopBehavior)]
    [(4, noopBehavior)] 1 "X-Tag" "a" hT hF hR hR4
  refine ⟨h1.1, ?_, h1.2.2.2.2.2.2.1 (by simp) (by simp), h1.2.2.2.2.2.2.2.1,
    by simpa [respTags, finTags] using h1.2.2.2.2.2.2.2.2.1,
    h1.2.2.2.2.2.2.2.2.2.1, h1.2.2.2.2.2.2.2.2.2.2⟩
  have hb := h2.2.1.1
  rw [hb]
  rfl

/-- C4. Router.dispatch matches the current table against the raw (still
percent-encoded) request path - it is a function of rawPath alone, not of the
decoded path field - strips the synthetic __host__ capture from the extracted
arguments before they reach the endpoint, fails with the NotFound error kind
when no route matches the path and with the distinct MethodNotAllowed error
kind when a route matches the path but not the method, and otherwise returns
the Response produced by invoking the configured Dispatcher with the request,
the matched endpoint and the extracted arguments. -/
theorem claim_C4_dispatch_semantics
    (rs : RouterState) (D : Dispatcher) (req : HttpRequest)
    (p2 : String) (ep : Nat) (args : List (String × String)) :
    (rs.dispatchMatch req = rs.current.matchReq req.host (get_raw_path req) req.method)
    ∧ (RouterState.dispatchMatch rs { req with path := p2 } = rs.dispatchMatch req)
    ∧ (rs.dispatchMatch req = MatchResult.notFound →
        rs.dispatch D req = Except.error RoutingError.notFound)
    ∧ (rs.dispatchMatch req = MatchResult.methodNotAllowed →
        rs.dispatch D req = Except.error RoutingError.methodNotAllowed)
    ∧ (rs.dispatchMatch req = MatchResult.found ep args →
        rs.dispatch D req = Except.ok (D req ep (popHostArg args))
        ∧ (popHostArg args).find? (fun kv => kv.1 == "__host__") = Option.none) := by
  refine ⟨rfl, rfl, ?_, ?_, ?_⟩
  · intro h
    unfold RouterState.dispatch
    rw [h]
  · intro h
    unfold RouterState.dispatch
    rw [h]
  · intro h
    constructor
    · unfold RouterState.dispatch
      rw [h]
    · rw [List.find?_eq_none]
      intro x hx
      simp only [popHostArg, List.mem_filter] at hx
      simpa using hx.2

/-- Witness for C4 at concrete inputs: a router with the single rule
/items/(id) matching any host. A GET request for raw path /items/42 is
dispatched to endpoint 9 with only the id argument (the __host__ capture is
stripped); changing the decoded path field alone never changes the match; a
POST to the same path fails with MethodNotAllowed; an unknown path fails with
NotFound. -/
theorem claim_C4_dispatch_semantics_witness :
    (RouterState.dispatchMatch
        (routerInit.addRules
          [mkRule { segs := [Seg.lit "items", Seg.pvar "id"] } 9 (some ["GET"]) HostSpec.unset]).1
        { host := "h", method := "GET", path := "/decoded irrelevant", rawPath := "/items/42" }
      = RouterState.dispatchMatch
        (routerInit.addRules
          [mkRule { segs := [Seg.lit "items", Seg.pvar "id"] } 9 (some ["GET"]) HostSpec.unset]).1
        { host := "h", method := "GET", path := "/x", rawPath := "/items/42" })
    ∧ (RouterState.dispatch
        (routerInit.addRules
          [mkRule { segs := [Seg.lit "items", Seg.pvar "id"] } 9 (some ["GET"]) HostSpec.unset]).1
        (fun _ ep args => { statusCode := ep, headers := args })
        { host := "h", method := "GET", path := "/x", rawPath := "/items/42" }
      = Except.ok { statusCode := 9, headers := [("id", "42")] })
    ∧ (RouterState.dispatch
        (routerInit.addRules
          [mkRule { segs := [Seg.lit "items", Seg.pvar "id"] } 9 (some ["GET"]) HostSpec.unset]).1
        (fun _ ep args => { statusCode := ep, headers := args })
        { host := "h", method := "POST", path := "/x", rawPath := "/items/42" }
      = Except.error RoutingError.methodNotAllowed)
    ∧ (RouterState.dispatch
        (routerInit.addRules
          [mkRule { segs := [Seg.lit "items", Seg.pvar "id"] } 9 (some ["GET"]) HostSpec.unset]).1
        (fun _ ep args => { statusCode := ep, headers := args })
        { host := "h", method := "GET", path := "/x", rawPath := "/nothing" }
      = Except.error RoutingError.notFound) := by
  have hfound := (claim_C4_dispatch_semantics
    (routerInit.addRules
      [mkRule { segs := [Seg.lit "items", Seg.pvar "id"] } 9 (some ["GET"]) HostSpec.unset]).1
    (fun _ ep args => { statusCode := ep, headers := args })
    { host := "h", method := "GET", path := "/x", rawPath := "/items/42" }
    "/decoded irrelevant" 9 [("__host__", "h"), ("id", "42")]).2.2.2.2 (by decide)
  have hma := (claim_C4_dispatch_semantics
    (routerInit.addRules
      [mkRule { segs := [Seg.lit "items", Seg.pvar "id"] } 9 (some ["GET"]) HostSpec.unset]).1
    (fun _ ep args => { statusCode := ep, headers := args })
    { host := "h", method := "POST", path := "/x", rawPath := "/items/42" }
    "/decoded irrelevant" 9 []).2.2.2.1 (by decide)
  have hnf := (claim_C4_dispatch_semantics
    (routerInit.addRules
      [mkRule { segs := [Seg.lit "items", Seg.pvar "id"] } 9 (some ["GET"]) HostSpec.unset]).1
    (fun _ ep args => { statusCode := ep, headers := args })
    { host := "h", method := "GET", path := "/x", rawPath := "/nothing" }
    "/decoded irrelevant" 9 []).2.2.1 (by decide)
  have hraw := (claim_C4_dispatch_semantics
    (routerInit.addRules
      [mkRule { segs := [Seg.lit "items", Seg.pvar "id"] } 9 (some ["GET"]) HostSpec.unset]).1
    (fun _ ep args => { statusCode := ep, headers := args })
    { host := "h", method := "GET", path := "/x", rawPath := "/items/42" }
    "/decoded irrelevant" 9 []).2.1
  refine ⟨hraw, ?_, hma, hnf⟩
  rw [hfound.1]
  rfl

/-- C8. HEAD-method routes of a scanned object are registered before the GET
routes that would otherwise shadow them: _EndpointsObject.get_rules yields the
rules of all attributes with an explicit HEAD method first, then all others.
Consequently an object with both a GET and an explicit HEAD handler for the
same path serves HEAD requests with the explicit HEAD handler (whatever the
scan order of the two members), while an object with only a GET handler
serves HEAD requests via the GET route (HEAD is auto-added to GET rules by
the rule constructor). -/
theorem claim_C8_head_before_get
    (cfg : MapCfg) (es : List EndpointObj) (pat : PathPattern) (gid hid : Nat)
    (host rawPath : String) (pa : List (String × String))
    (hmp : matchPath pat rawPath = some pa) :
    (endpointsObjectGetRules cfg es
      = ((attrsFlat es).filter (fun x => attrHasHead x.2)).flatMap
          (fun x => endpointRuleGetRules cfg x.2.path x.1 x.2.host x.2.methods)
        ++ ((attrsFlat es).filter (fun x => !attrHasHead x.2)).flatMap
          (fun x => endpointRuleGetRules cfg x.2.path x.1 x.2.host x.2.methods))
    ∧ ((objectRouter [getOnlyEndpoint pat gid, headOnlyEndpoint pat hid]).current.matchReq
        host rawPath "HEAD" = MatchResult.found hid (("__host__", host) :: pa))
    ∧ ((objectRouter [getOnlyEndpoint pat gid, headOnlyEndpoint pat hid]).current.matchReq
        host rawPath "GET" = MatchResult.found gid (("__host__", host) :: pa))
    ∧ ((objectRouter [headOnlyEndpoint pat hid, getOnlyEndpoint pat gid]).current.matchReq
        host rawPath "HEAD" = MatchResult.found hid (("__host__", host) :: pa))
    ∧ ((objectRouter [getOnlyEndpoint pat gid]).current.matchReq
        host rawPath "HEAD" = MatchResult.found gid (("__host__", host) :: pa)) := by
  have hcur2 : (objectRouter [getOnlyEndpoint pat gid, headOnlyEndpoint pat hid]).current.rules
      = [{ pattern := pat, host := HostSpec.anyHost, methods := some ["HEAD"], endpoint := hid,
           bound := true },
         { pattern := pat, host := HostSpec.anyHost, methods := some ["GET", "HEAD"],
           endpoint := gid, bound := true }] := rfl
  have hcur2r : (objectRouter [headOnlyEndpoint pat hid, getOnlyEndpoint pat gid]).current.rules
      = [{ pattern := pat, host := HostSpec.anyHost, methods := some ["HEAD"], endpoint := hid,
           bound := true },
         { pattern := pat, host := HostSpec.anyHost, methods := some ["GET", "HEAD"],
           endpoint := gid, bound := true }] := rfl
  have hcur1 : (objectRouter [getOnlyEndpoint pat gid]).current.rules
      = [{ pattern := pat, host := HostSpec.anyHost, methods := some ["GET", "HEAD"],
           endpoint := gid, bound := true }] := rfl
  refine ⟨endpointsObjectGetRules_two_pass cfg es, ?_, ?_, ?_, ?_⟩
  · unfold UrlMap.matchReq
    rw [hcur2]
    simp [matchRules, matchHost, hmp, Rule.allows]
  · unfold UrlMap.matchReq
    rw [hcur2]
    simp [matchRules, matchHost, hmp, Rule.allows]
  · unfold UrlMap.matchReq
    rw [hcur2r]
    simp [matchRules, matchHost, hmp, Rule.allows]
  · unfold UrlMap.matchReq
    rw [hcur1]
    simp [matchRules, matchHost, hmp, Rule.allows]

/-- Witness for C8 at concrete inputs: the object with a GET member and an
explicit HEAD member on /res serves HEAD with the HEAD endpoint and GET with
the GET endpoint; the GET-only object serves HEAD via the GET route. -/
theorem claim_C8_head_before_get_witness :
    ((objectRouter [getOnlyEndpoint { segs := [Seg.lit "res"] } 1,
        headOnlyEndpoint { segs := [Seg.lit "res"] } 2]).current.matchReq
      "h" "/res" "HEAD" = MatchResult.found 2 [("__host__", "h")])
    ∧ ((objectRouter [getOnlyEndpoint { segs := [Seg.lit "res"] } 1,
        headOnlyEndpoint { segs := [Seg.lit "res"] } 2]).current.matchReq
      "h" "/res" "GET" = MatchResult.found 1 [("__host__", "h")])
    ∧ ((objectRouter [getOnlyEndpoint { segs := [Seg.lit "res"] } 1]).current.matchReq
      "h" "/res" "HEAD" = MatchResult.found 1 [("__host__", "h")]) := by
  have h := claim_C8_head_before_get routerCfg [] { segs := [Seg.lit "res"] } 1 2
    "h" "/res" [] (by decide)
  exact ⟨h.2.1, h.2.2.1, h.2.2.2.2⟩

/-- C5. Copy-on-write routing table. Router._add_rules, Router.add_rule and
Router._remove_rules leave every map object that existed before the call
untouched in the store: the new state's store is the old store plus exactly
one freshly built map, the url_map reference is swapped to that new map, the
new map holds fresh (re-bound) copies of the surviving old rules plus the
delta, and a dispatch bound to any older snapshot is unaffected by the
mutation. -/
theorem claim_C5_copy_on_write
    (rs : RouterState) (produced : List Rule) (r0 : Rule)
    (toRemove : List Rule) (rs1 : RouterState) (j : Nat)
    (D : Dispatcher) (req : HttpRequest) :
    ((rs.addRules produced).1.maps.take rs.maps.length = rs.maps
     ∧ (rs.addRules produced).1.urlMap = rs.maps.length
     ∧ (rs.addRules produced).1.current.rules
         = rs.current.rules.map (fun r => { r with bound := true })
           ++ (produced.map (hostAdjust rs.current.cfg)).map (fun r => { r with bound := true })
     ∧ (j < rs.maps.length →
         RouterState.dispatch { maps := (rs.addRules produced).1.maps, urlMap := j } D req
           = RouterState.dispatch { maps := rs.maps, urlMap := j } D req))
    ∧ ((rs.addRule r0).maps.take rs.maps.length = rs.maps
     ∧ (rs.addRule r0).urlMap = rs.maps.length
     ∧ (rs.addRule r0).current.rules
         = rs.current.rules.map (fun r => { r with bound := true }) ++ [{ r0 with bound := true }]
     ∧ (j < rs.maps.length →
         RouterState.dispatch { maps := (rs.addRule r0).maps, urlMap := j } D req
           = RouterState.dispatch { maps := rs.maps, urlMap := j } D req))
    ∧ (rs.removeRules toRemove = Except.ok rs1 →
      rs1.maps.take rs.maps.length = rs.maps
      ∧ rs1.urlMap = rs.maps.length
      ∧ (j < rs.maps.length →
          RouterState.dispatch { maps := rs1.maps, urlMap := j } D req
            = RouterState.dispatch { maps := rs.maps, urlMap := j } D req)) := by
  refine ⟨⟨List.take_left _ _, rfl, ?_, ?_⟩, ⟨List.take_left _ _, rfl, ?_, ?_⟩, ?_⟩
  · show (({ maps := rs.maps ++ [(produced.map (hostAdjust (cloneMapWithRules rs.current).cfg)).foldl UrlMap.add (cloneMapWithRules rs.current)], urlMap := rs.maps.length } : RouterState)).current.rules = _
    rw [current_last, foldl_add, cloneMapWithRules_eq]
  · intro hj
    refine dispatch_congr _ _ D req ?_
    exact current_append rs.maps _ j hj
  · show (({ maps := rs.maps ++ [(cloneMapWithRules rs.current).add r0], urlMap := rs.maps.length } : RouterState)).current.rules = _
    rw [current_last, cloneMapWithRules_eq]
    rfl
  · intro hj
    refine dispatch_congr _ _ D req ?_
    exact current_append rs.maps _ j hj
  · intro hok
    cases hguard : (toRemove.all fun r => rs.current.rules.any fun o => ruleEq r o) with
    | false =>
      rw [show rs.removeRules toRemove = Except.error RouterError.noSuchRoute from by
        simp [RouterState.removeRules, hguard]] at hok
      cases hok
    | true =>
      rw [show rs.removeRules toRemove = Except.ok
          { maps := rs.maps ++ [rs.current.rules.foldl
              (fun n o => if toRemove.any (fun r => ruleEq o r) then n else n.add o.empty)
              (cloneMapWithoutRules rs.current)],
            urlMap := rs.maps.length } from by
        simp [RouterState.removeRules, hguard]] at hok
      cases hok
      refine ⟨List.take_left _ _, rfl, ?_⟩
      intro hj
      refine dispatch_congr _ _ D req ?_
      exact current_append rs.maps _ j hj

/-- Witness for C5 at concrete inputs: adding a second rule to a one-rule
router keeps the old map object intact in the store and leaves a dispatch
pinned to the old snapshot unchanged. -/
theorem claim_C5_copy_on_write_witness :
    ((routerInit.addRule (mkRule { segs := [Seg.lit "a"] } 1 Option.none HostSpec.anyHost)).maps.take 1
      = routerInit.maps)
    ∧ ((routerInit.addRule (mkRule { segs := [Seg.lit "a"] } 1 Option.none HostSpec.anyHost)).urlMap = 1)
    ∧ (RouterState.dispatch
        { maps := (routerInit.addRule (mkRule { segs := [Seg.lit "a"] } 1 Option.none HostSpec.anyHost)).maps,
          urlMap := 0 } (fun _ _ _ => Resp.default)
        { host := "h", method := "GET", path := "/a", rawPath := "/a" }
      = RouterState.dispatch { maps := routerInit.maps, urlMap := 0 } (fun _ _ _ => Resp.default)
        { host := "h", method := "GET", path := "/a", rawPath := "/a" }) := by
  have h := claim_C5_copy_on_write routerInit []
    (mkRule { segs := [Seg.lit "a"] } 1 Option.none HostSpec.anyHost) [] routerInit 0
    (fun _ _ _ => Resp.default) { host := "h", method := "GET", path := "/a", rawPath := "/a" }
  exact ⟨h.2.1.1, h.2.1.2.1, h.2.1.2.2.2 (by simp [routerInit])⟩

/-- C6. Router.remove fails with the NoSuchRoute error kind (the
KeyError("no such rule") of the code) when any given route is missing from
the current table, before any new table is installed; rule equality is stable
across the clone operations (empty copies and re-binding do not change a
rule's identity); and on success the freshly installed table holds exactly
the old rules minus the given ones. -/
theorem claim_C6_remove_semantics
    (rs : RouterState) (toRemove : List Rule) (r0 : Rule) (b0 : Bool) (m : UrlMap) :
    ((∃ r ∈ toRemove, ∀ o ∈ rs.current.rules, ruleEq r o = false) →
        rs.removeRules toRemove = Except.error RouterError.noSuchRoute)
    ∧ (ruleEq r0 (Rule.empty r0) = true)
    ∧ (ruleEq r0 { r0 with bound := b0 } = true)
    ∧ ((cloneMapWithRules m).rules.map Rule.key = m.rules.map Rule.key)
    ∧ ((∀ r ∈ toRemove, ∃ o ∈ rs.current.rules, ruleEq r o = true) →
        ∃ rs1, rs.removeRules toRemove = Except.ok rs1
          ∧ rs1.current.rules
              = (rs.current.rules.filter
                  (fun o => !toRemove.any (fun r => ruleEq o r))).map
                  (fun r => { r with bound := true })
          ∧ rs1.maps.take rs.maps.length = rs.maps
          ∧ rs1.urlMap = rs.maps.length) := by
  refine ⟨?_, by simp [ruleEq, Rule.empty, Rule.key], by simp [ruleEq, Rule.key], ?_, ?_⟩
  · rintro ⟨r, hr, hall⟩
    have hfalse : (toRemove.all fun r => rs.current.rules.any fun o => ruleEq r o) = false :=
      List.all_eq_false.mpr ⟨r, hr, by
        rw [List.any_eq_false.mpr (fun o ho => by simp [hall o ho])]
        simp⟩
    simp [RouterState.removeRules, hfalse]
  · rw [cloneMapWithRules_eq, List.map_map]
    rfl
  · intro hmem
    have htrue : (toRemove.all fun r => rs.current.rules.any fun o => ruleEq r o) = true :=
      List.all_eq_true.mpr (fun r hr => by
        obtain ⟨o, ho, heq⟩ := hmem r hr
        exact List.any_eq_true.mpr ⟨o, ho, heq⟩)
    have hdef : rs.removeRules toRemove
        = Except.ok { maps := rs.maps ++ [rs.current.rules.foldl
            (fun n o => if toRemove.any (fun r => ruleEq o r) then n else n.add o.empty)
            (cloneMapWithoutRules rs.current)], urlMap := rs.maps.length } := by
      rw [show rs.removeRules toRemove
        = (if (toRemove.all fun r => rs.current.rules.any fun o => ruleEq r o) = true
           then Except.ok { maps := rs.maps ++ [rs.current.rules.foldl
              (fun n o => if toRemove.any (fun r => ruleEq o r) then n else n.add o.empty)
              (cloneMapWithoutRules rs.current)], urlMap := rs.maps.length }
           else Except.error RouterError.noSuchRoute) from rfl]
      rw [if_pos htrue]
    refine ⟨_, hdef, ?_, List.take_left _ _, rfl⟩
    rw [current_last, foldl_filter_add]
    simp [cloneMapWithoutRules]

/-- Witness for C6 at concrete inputs: removing a rule that was never added
fails with NoSuchRoute, and removing the one added rule succeeds and leaves
an empty table. -/
theorem claim_C6_remove_semantics_witness :
    ((routerInit.addRule (mkRule { segs := [Seg.lit "a"] } 1 Option.none HostSpec.anyHost)).removeRules
        [mkRule { segs := [Seg.lit "b"] } 2 Option.none HostSpec.anyHost]
      = Except.error RouterError.noSuchRoute)
    ∧ (∃ rs1, (routerInit.addRule (mkRule { segs := [Seg.lit "a"] } 1 Option.none HostSpec.anyHost)).removeRules
        [mkRule { segs := [Seg.lit "a"] } 1 Option.none HostSpec.anyHost] = Except.ok rs1
      ∧ rs1.current.rules = []) := by
  have h := claim_C6_remove_semantics
    (routerInit.addRule (mkRule { segs := [Seg.lit "a"] } 1 Option.none HostSpec.anyHost))
    [mkRule { segs := [Seg.lit "b"] } 2 Option.none HostSpec.anyHost]
    (mkRule { segs := [Seg.lit "a"] } 1 Option.none HostSpec.anyHost) true
    { cfg := routerCfg, rules := [] }
  have h2 := claim_C6_remove_semantics
    (routerInit.addRule (mkRule { segs := [Seg.lit "a"] } 1 Option.none HostSpec.anyHost))
    [mkRule { segs := [Seg.lit "a"] } 1 Option.none HostSpec.anyHost]
    (mkRule { segs := [Seg.lit "a"] } 1 Option.none HostSpec.anyHost) true
    { cfg := routerCfg, rules := [] }
  constructor
  · refine h.1 ⟨mkRule { segs := [Seg.lit "b"] } 2 Option.none HostSpec.anyHost, by simp, ?_⟩
    intro o ho
    rw [show (routerInit.addRule (mkRule { segs := [Seg.lit "a"] } 1 Option.none HostSpec.anyHost)).current.rules
      = [{ mkRule { segs := [Seg.lit "a"] } 1 Option.none HostSpec.anyHost with bound := true }]
      from rfl] at ho
    rw [List.mem_singleton.mp ho]
    decide
  · have harg : ∀ r ∈ [mkRule { segs := [Seg.lit "a"] } 1 Option.none HostSpec.anyHost],
        ∃ o ∈ (routerInit.addRule
          (mkRule { segs := [Seg.lit "a"] } 1 Option.none HostSpec.anyHost)).current.rules,
          ruleEq r o = true := by
      intro r hr
      rw [List.mem_singleton.mp hr]
      refine ⟨{ mkRule { segs := [Seg.lit "a"] } 1 Option.none HostSpec.anyHost with bound := true },
        ?_, by decide⟩
      rw [show (routerInit.addRule (mkRule { segs := [Seg.lit "a"] } 1 Option.none HostSpec.anyHost)).current.rules
        = [{ mkRule { segs := [Seg.lit "a"] } 1 Option.none HostSpec.anyHost with bound := true }]
        from rfl]
      simp
    obtain ⟨rs1, hok, hrules, h3, h4⟩ := h2.2.2.2.2 harg
    refine ⟨rs1, hok, ?_⟩
    rw [hrules]
    decide

/-- C7. Result coercion of the structured handler dispatcher: a Response
passes through unchanged; a mapping or sequence is JSON-serialized into the
body of a fresh Response with Content-Type application/json; a string or
bytes value becomes the raw body with no forced content type; any other value
fails with UnsupportedResultType; a pydantic model instance is first
decomposed into its mapping and then treated like one; a None result yields
the fresh default Response. -/
theorem claim_C7_dispatcher_result_coercion
    (r : Resp) (s b : String) (kvs : List (String × JScalar)) (xs : List JScalar) (o : Nat) :
    (handlerDispatcherCoerce (.response r) = .ok r)
    ∧ (handlerDispatcherCoerce (.mapping kvs)
        = .ok { statusCode := 200, body := .chunks [JValue.dumps (.obj kvs)],
                mimetype := some "application/json", headers := [] })
    ∧ (handlerDispatcherCoerce (.sequence xs)
        = .ok { statusCode := 200, body := .chunks [JValue.dumps (.arr xs)],
                mimetype := some "application/json", headers := [] })
    ∧ (handlerDispatcherCoerce (.str s)
        = .ok { statusCode := 200, body := .chunks [s], mimetype := Option.none, headers := [] })
    ∧ (handlerDispatcherCoerce (.bytes b)
        = .ok { statusCode := 200, body := .chunks [b], mimetype := Option.none, headers := [] })
    ∧ (handlerDispatcherCoerce (.other o) = .error .unsupportedResultType)
    ∧ (handlerDispatcherCoerce (.model kvs) = handlerDispatcherCoerce (.mapping kvs))
    ∧ (handlerDispatcherCoerce .none = .ok Resp.default) :=
  ⟨rfl, rfl, rfl, rfl, rfl, rfl, rfl, rfl⟩

/-- Witness for C10 at concrete inputs: a request handler that throws 7 and
returns normally makes handle raise 7 with the exception handler and the
response handler never invoked but the finalizer run, and without setting the
stopped flag; a response handler that throws 7 changes nothing in the control
flow - the following response handler and the finalizer still run, handle
returns normally, and the error stays recorded, never raised. -/
theorem claim_C10_throw_semantics_witness :
    ((handle {} ([] ++ (1, throwBehavior 7) :: [(2, noopBehavior)]) [(5, fun _ v => (v, Option.none))]
        [(3, noopBehavior)] [(4, noopBehavior)] Resp.default).2 = some 7)
    ∧ ((handle {} ([] ++ (1, throwBehavior 7) :: [(2, noopBehavior)]) [(5, fun _ v => (v, Option.none))]
        [(3, noopBehavior)] [(4, noopBehavior)] Resp.default).1.trace
      = [(Phase.req, 1), (Phase.fin, 4)])
    ∧ ((handle {} ([] ++ (1, throwBehavior 7) :: [(2, noopBehavior)]) [(5, fun _ v => (v, Option.none))]
        [(3, noopBehavior)] [(4, noopBehavior)] Resp.default).1.vis.stopped = false)
    ∧ ((handle {} [] [] ([] ++ (6, throwBehavior 7) :: [(8, noopBehavior)])
        [(4, noopBehavior)] Resp.default).2 = Option.none)
    ∧ ((handle {} [] [] ([] ++ (6, throwBehavior 7) :: [(8, noopBehavior)])
        [(4, noopBehavior)] Resp.default).1.trace
      = [(Phase.resp, 6), (Phase.resp, 8), (Phase.fin, 4)])
    ∧ ((handle {} [] [] ([] ++ (6, throwBehavior 7) :: [(8, noopBehavior)])
        [(4, noopBehavior)] Resp.default).1.vis.error = some 7) := by
  have hpresS : ∀ p ∈ [((4 : Nat), noopBehavior)], PreservesStopped p.2 := by
    intro p hp
    rw [List.mem_singleton.mp hp]
    intro v
    rfl
  have hpresE : ∀ p ∈ [((4 : Nat), noopBehavior)], PreservesError p.2 := by
    intro p hp
    rw [List.mem_singleton.mp hp]
    intro v
    rfl
  have hpresT8 : ∀ p ∈ [((8 : Nat), noopBehavior)], PreservesTerminated p.2 := by
    intro p hp
    rw [List.mem_singleton.mp hp]
    intro v
    rfl
  have hpresF8 : ∀ p ∈ [((8 : Nat), noopBehavior)], PreservesFinalized p.2 := by
    intro p hp
    rw [List.mem_singleton.mp hp]
    intro v
    rfl
  have hpresE8 : ∀ p ∈ [((8 : Nat), noopBehavior)], PreservesError p.2 := by
    intro p hp
    rw [List.mem_singleton.mp hp]
    intro v
    rfl
  have h := claim_C10_throw_semantics {} [(5, fun _ v => (v, Option.none))]
    [] [(2, noopBehavior)] [(4, noopBehavior)] [] [(8, noopBehavior)] [(3, noopBehavior)]
    1 6 Resp.default 7
    (by simp) hpresS hpresE (by simp) hpresT8 (by simp) hpresF8 hpresE8
  exact ⟨h.1.1, by simpa [reqTags, finTags] using h.1.2.1, h.1.2.2.2,
    h.2.1, by simpa [respTags, finTags] using h.2.2.1, h.2.2.2⟩

/-- Witness for C2 at concrete inputs: with the default configuration a chain
with a throwing-free request handler escapes nothing; with raise-on-error
enabled a raising request handler escapes its exception after the exception
handler ran, skipping the response handler but not the finalizer; and a chain
whose request handler raises still runs its single finalizer exactly once. -/
theorem claim_C2_propagation_and_finalizers_witness :
    ((handle {} [(0, noopBehavior)] [] [(2, noopBehavior)] [(3, noopBehavior)]
        Resp.default).2 = Option.none)
    ∧ ((handle { raiseOnError := true } ([] ++ (1, raiseBehavior 7) :: []) [(4, fun _ v => (v, Option.none))]
        [(2, noopBehavior)] [(3, noopBehavior)] Resp.default).2 = some 7)
    ∧ ((handle { raiseOnError := true } ([] ++ (1, raiseBehavior 7) :: []) [(4, fun _ v => (v, Option.none))]
        [(2, noopBehavior)] [(3, noopBehavior)] Resp.default).1.trace
      = [(Phase.req, 1), (Phase.exc, 4), (Phase.fin, 3)])
    ∧ (((handle {} [(0, raiseBehavior 9)] [] [(2, noopBehavior)] [(3, noopBehavior)]
        Resp.default).1.trace).count (Phase.fin, 3) = 1) := by
  have hnoop1 : ∀ p ∈ [((0 : Nat), noopBehavior)], PreservesError p.2 := by
    intro p hp
    rw [List.mem_singleton.mp hp]
    intro v
    rfl
  have hc1 := (claim_C2_propagation_and_finalizers {} [(0, noopBehavior)] [(2, noopBehavior)]
    [(3, noopBehavior)] [] [] [] Resp.default 0 7).1 rfl hnoop1 (by simp)
  have hexcid : ∀ p ∈ [((4 : Nat), fun (_ : Exn) (v : Visible) => (v, (Option.none : Option Exn)))],
      ExcPreservesError p.2 := by
    intro p hp
    rw [List.mem_singleton.mp hp]
    intro e v
    rfl
  have hexcidF : ∀ p ∈ [((4 : Nat), fun (_ : Exn) (v : Visible) => (v, (Option.none : Option Exn)))],
      ExcPreservesFinalized p.2 := by
    intro p hp
    rw [List.mem_singleton.mp hp]
    intro e v
    rfl
  have hc3 := (claim_C2_propagation_and_finalizers { raiseOnError := true } [] [(2, noopBehavior)]
    [(3, noopBehavior)] [] [] [(4, fun _ v => (v, Option.none))] Resp.default 1 7).2.2.1
    rfl (by simp) hexcid hexcidF
  have hraise : ∀ p ∈ [((0 : Nat), raiseBehavior 9)], PreservesFinalized p.2 := by
    intro p hp
    rw [List.mem_singleton.mp hp]
    intro v
    rfl
  have hnoopF : ∀ p ∈ [((2 : Nat), noopBehavior)], PreservesFinalized p.2 := by
    intro p hp
    rw [List.mem_singleton.mp hp]
    intro v
    rfl
  have hc4 := (claim_C2_propagation_and_finalizers {} [(0, raiseBehavior 9)] [(2, noopBehavior)]
    [(3, noopBehavior)] [] [] [] Resp.default 0 7).2.2.2 hraise (by simp) hnoopF 3
  exact ⟨hc1, hc3.1, by simpa [reqTags, excTags, finTags] using hc3.2, by simpa using hc4⟩

/-- Witness for C3 at concrete inputs: a stop in the first request handler
runs the response handler and the finalizer but not the second request
handler; a terminate skips the response handler too; a terminate inside the
response-handler list skips the rest of that list. -/
theorem claim_C3_stop_terminate_semantics_witness :
    ((handle {} ([] ++ (0, stopBehavior) :: [(1, noopBehavior)]) []
        [(2, noopBehavior)] [(3, noopBehavior)] Resp.default).1.trace
      = [(Phase.req, 0), (Phase.resp, 2), (Phase.fin, 3)])
    ∧ ((handle {} ([] ++ (0, terminateBehavior) :: [(1, noopBehavior)]) []
        [(2, noopBehavior)] [(3, noopBehavior)] Resp.default).1.trace
      = [(Phase.req, 0), (Phase.fin, 3)])
    ∧ ((handle {} [] [] ([] ++ (5, terminateBehavior) :: [(4, noopBehavior)])
        [(3, noopBehavior)] Resp.default).1.trace
      = [(Phase.resp, 5), (Phase.fin, 3)])
    ∧ ((Phase.req, 1) ∉
        (handle {} ([] ++ (0, stopBehavior) :: [(1, noopBehavior)]) []
          [(2, noopBehavior)] [(3, noopBehavior)] Resp.default).1.trace) := by
  have hsingleT : ∀ (j : Nat), ∀ p ∈ [(j, noopBehavior)], PreservesTerminated p.2 := by
    intro j p hp
    rw [List.mem_singleton.mp hp]
    intro v
    rfl
  have hsingleF : ∀ (j : Nat), ∀ p ∈ [(j, noopBehavior)], PreservesFinalized p.2 := by
    intro j p hp
    rw [List.mem_singleton.mp hp]
    intro v
    rfl
  have h := claim_C3_stop_terminate_semantics {} [] [] [(1, noopBehavior)]
    [(2, noopBehavior)] [(3, noopBehavior)] [] [(4, noopBehavior)] 0 5 Resp.default
    (by simp) (hsingleT 2) (hsingleF 2) (by simp) (by simp)
  refine ⟨by simpa [reqTags, respTags, finTags] using h.1.1,
    by simpa [reqTags, respTags, finTags] using h.2.1.1,
    by simpa [respTags, finTags] using h.2.2.1, ?_⟩
  exact h.2.2.2.1 (by simp) (1, noopBehavior) (by simp)

/-- Witness for C1 at concrete inputs: two finalizers where the first raises
exception 7 - both are invoked and the exception is logged; a response
handler that raises 9 still completes its loop; an exception handler raising
a nested 8 has it logged. -/
theorem claim_C1_failure_isolation_witness :
    ((callFinalizers [(0, raiseBehavior 7), (1, noopBehavior)] (initState Resp.default)).trace
      = [(Phase.fin, 0), (Phase.fin, 1)])
    ∧ ((callResponseHandlers [(2, raiseBehavior 9)] (initState Resp.default)).trace
      = [(Phase.resp, 2)])
    ∧ ((Phase.fin, 7) ∈
        (callFinalizers ([] ++ (0, raiseBehavior 7) :: [(1, noopBehavior)])
          (initState Resp.default)).log)
    ∧ ((Phase.exc, 8) ∈
        (callExceptionHandlers 7 ([] ++ (3, fun _ v => (v, some 8)) :: [])
          (initState Resp.default)).log) := by
  have h := claim_C1_failure_isolation (initState Resp.default) 7 8 0 3
    (raiseBehavior 7) (fun _ v => (v, some 8))
    [(0, raiseBehavior 7), (1, noopBehavior)] [(2, raiseBehavior 9)] []
    [] [(1, noopBehavior)] [] [] [] []
  refine ⟨by simpa [finTags] using h.1, ?_, ?_, ?_⟩
  · have h3 := h.2.2.1 ?_ rfl
    · simpa [respTags] using h3
    · intro p hp
      simp only [List.mem_singleton] at hp
      subst hp
      intro v
      rfl
  · exact h.2.2.2.1 rfl
  · exact h.2.2.2.2.1 rfl

end Rolo
